import Mathlib

/-!
# resizer: `ResizeToWebP` and the batch loop of `main`

Shallow embedding of `src/cmd/service/main.go`.

* Go `int` values are `Int` (the operands that occur are 64-bit, so below `2 ^ 63`
  in magnitude).
* Go `float64` / `float32` values are modelled exactly: a finite value is
  `(-1) ^ neg * man * 2 ^ exp`, and every arithmetic operation returns the
  correctly rounded result (round to nearest, ties to even) at 53 or 24 bits of
  precision.  With operands that come from 64-bit integers the exponents stay far
  inside the binary64 range, so neither overflow to infinity nor gradual
  underflow occurs and the unbounded exponent is exact.
* The resampler (`imaging.Resize`) and the encoder (`webp.Encode`) are
  third-party libraries; they are parameters of the model.
* `http.Get`, `io.ReadAll` and the JSON decoder act on an explicit world state.
-/

namespace Resizer

/-! ## Floating point -/

/-- Nearest integer to `n / d`, ties to the even neighbour (`0 < d`). -/
def roundHalfEven (n d : Nat) : Nat :=
  let q := n / d
  let r := n % d
  if 2 * r < d then q
  else if d < 2 * r then q + 1
  else if q % 2 = 0 then q else q + 1

/-- Position of the leading bit: `ilog2 n n = ⌊log₂ n⌋` for `0 < n`. -/
def ilog2 : Nat → Nat → Nat
  | 0, _ => 0
  | fuel + 1, n => if n < 2 then 0 else ilog2 fuel (n / 2) + 1

/-- The integer `k` with `2 ^ k ≤ n / d < 2 ^ (k + 1)` (`0 < n`, `0 < d`). -/
def floorLog2Frac (n d : Nat) : Int :=
  let a := ilog2 n n
  let b := ilog2 d d
  if n * 2 ^ b < d * 2 ^ a then (a : Int) - (b : Int) - 1
  else (a : Int) - (b : Int)

/-- Correct rounding of the positive number `(n / d) * 2 ^ x` to `p` significant
bits: the result `(m, e)` stands for `m * 2 ^ e`, where `m` is the nearest-even
integer to the operand scaled into `[2 ^ (p - 1), 2 ^ p)`. -/
def roundBin (p n d : Nat) (x : Int) : Nat × Int :=
  let s : Int := floorLog2Frac n d - ((p : Int) - 1)
  let m := if 0 ≤ s then roundHalfEven n (d * 2 ^ s.toNat)
           else roundHalfEven (n * 2 ^ (-s).toNat) d
  (m, s + x)

/-- A Go floating-point value. -/
inductive GoFloat where
  | fin (neg : Bool) (man : Nat) (exp : Int)
  | inf (neg : Bool)
  | nan
deriving DecidableEq, Repr

namespace GoFloat

/-- The float nearest to `(-1) ^ neg * (n / d) * 2 ^ x` at precision `p`. -/
def ofFrac (p : Nat) (neg : Bool) (n d : Nat) (x : Int) : GoFloat :=
  if n = 0 then fin neg 0 0
  else fin neg (roundBin p n d x).1 (roundBin p n d x).2

/-- Go `a / b`. -/
def div (p : Nat) : GoFloat → GoFloat → GoFloat
  | nan, _ => nan
  | _, nan => nan
  | inf _, inf _ => nan
  | inf a, fin b _ _ => inf (xor a b)
  | fin a _ _, inf b => fin (xor a b) 0 0
  | fin a m e, fin b m' e' =>
    if m' = 0 then (if m = 0 then nan else inf (xor a b))
    else ofFrac p (xor a b) m m' (e - e')

/-- Go `a * b`. -/
def mul (p : Nat) : GoFloat → GoFloat → GoFloat
  | nan, _ => nan
  | _, nan => nan
  | inf a, inf b => inf (xor a b)
  | inf a, fin b m _ => if m = 0 then nan else inf (xor a b)
  | fin a m _, inf b => if m = 0 then nan else inf (xor a b)
  | fin a m e, fin b m' e' => ofFrac p (xor a b) (m * m') 1 (e + e')

/-- The signed numerator of a finite value over the common scale `2 ^ e0`. -/
def scaled (neg : Bool) (m : Nat) (e e0 : Int) : Int :=
  let t : Int := (m * 2 ^ (e - e0).toNat : Nat)
  if neg then -t else t

/-- Go `a + b`. -/
def add (p : Nat) : GoFloat → GoFloat → GoFloat
  | nan, _ => nan
  | _, nan => nan
  | inf a, inf b => if a = b then inf a else nan
  | inf a, fin _ _ _ => inf a
  | fin _ _ _, inf b => inf b
  | fin a m e, fin b m' e' =>
    let e0 := min e e'
    let s := scaled a m e e0 + scaled b m' e' e0
    if s = 0 then fin (a && b) 0 0
    else ofFrac p (decide (s < 0)) s.natAbs 1 e0

/-- Go `math.Floor`. -/
def floor : GoFloat → GoFloat
  | fin neg m e =>
    if 0 ≤ e then fin neg m e
    else
      let d := 2 ^ (-e).toNat
      if neg then fin neg ((m + d - 1) / d) 0 else fin neg (m / d) 0
  | f => f

/-- Strict order `a < b` on finite values. -/
def finLt (a : Bool) (m : Nat) (e : Int) (b : Bool) (m' : Nat) (e' : Int) : Bool :=
  decide (scaled a m e (min e e') < scaled b m' e' (min e e'))

/-- Go `math.Max`. -/
def max : GoFloat → GoFloat → GoFloat
  | inf false, _ => inf false
  | _, inf false => inf false
  | nan, _ => nan
  | _, nan => nan
  | inf true, y => y
  | x, inf true => x
  | fin a m e, fin b m' e' =>
    if finLt a m e b m' e' then fin b m' e'
    else if finLt b m' e' a m e then fin a m e
    else if a then fin b m' e' else fin a m e

/-- Integer part of a finite value, truncated toward zero. -/
def trunc (neg : Bool) (m : Nat) (e : Int) : Int :=
  let t : Int := if 0 ≤ e then (m * 2 ^ e.toNat : Nat) else (m / 2 ^ (-e).toNat : Nat)
  if neg then -t else t

end GoFloat

/-- Go `float64(n)` for an `int`. -/
def float64 (n : Int) : GoFloat := GoFloat.ofFrac 53 (decide (n < 0)) n.natAbs 1 0

/-- Go `float32(n)` for an `int`. -/
def float32 (n : Int) : GoFloat := GoFloat.ofFrac 24 (decide (n < 0)) n.natAbs 1 0

/-- Whether the integer part of `f` fits a 64-bit `int`. -/
def GoFloat.fitsInt : GoFloat → Bool
  | GoFloat.fin neg m e =>
    decide (-2 ^ 63 ≤ GoFloat.trunc neg m e ∧ GoFloat.trunc neg m e < 2 ^ 63)
  | _ => false

/-- Go `int(f)` for a `float64`: the fraction is discarded.  When the truncated
value does not fit a 64-bit `int` (or `f` is infinite or NaN) the language leaves
the result to the implementation; `ovf` is that implementation-dependent result
(`-2 ^ 63` on amd64). -/
def intOfFloat (ovf : GoFloat → Int) : GoFloat → Int
  | GoFloat.fin neg m e =>
    let v := GoFloat.trunc neg m e
    if -2 ^ 63 ≤ v ∧ v < 2 ^ 63 then v else ovf (GoFloat.fin neg m e)
  | f => ovf f

/-! ## Data model -/

/-- Go `type Resolution struct { Width int; Height int }`. -/
structure Resolution where
  Width : Int
  Height : Int
deriving DecidableEq, Repr

/-- An `image.Image`: the extent of its bounds and its pixel payload. -/
structure Image where
  Dx : Int
  Dy : Int
  pix : List Nat
deriving DecidableEq, Repr

/-- Resampling filters of the `imaging` package. -/
inductive ResampleFilter where
  | NearestNeighbor
  | Box
  | Linear
  | Lanczos
deriving DecidableEq, Repr

/-- The two library calls `ResizeToWebP` makes. -/
inductive Call where
  | resize (img : Image) (width height : Int) (filter : ResampleFilter)
  | encode (img : Image) (quality : GoFloat)
deriving DecidableEq, Repr

/-- The third-party collaborators of `ResizeToWebP`.  `webpEncode` returns the
bytes it wrote into the buffer together with its error (`none` is `nil`). -/
structure Libs (Err : Type) where
  imagingResize : Image → Int → Int → ResampleFilter → Image
  webpEncode : Image → GoFloat → List Nat × Option Err

/-! ## `ResizeToWebP` -/

/-- Line 36: `ratio := float64(res.Height) / float64(origHeight)`. -/
def ratio (origHeight Height : Int) : GoFloat :=
  GoFloat.div 53 (float64 Height) (float64 origHeight)

/-- Line 37, before the conversion: `float64(origWidth) * ratio`. -/
def scaledWidth (origWidth origHeight Height : Int) : GoFloat :=
  GoFloat.mul 53 (float64 origWidth) (ratio origHeight Height)

/-- Line 37: `newWidth := int(float64(origWidth) * ratio)`. -/
def newWidth (ovf : GoFloat → Int) (origWidth origHeight Height : Int) : Int :=
  intOfFloat ovf (scaledWidth origWidth origHeight Height)

/-- Result of `ResizeToWebP`: the returned `([]byte, error)` pair (a nil slice is
`[]`, a nil error is `none`) and the library calls performed, in order. -/
structure Outcome (Err : Type) where
  bytes : List Nat
  err : Option Err
  calls : List Call

/-- Go `func ResizeToWebP(img image.Image, res Resolution, quality int) ([]byte, error)`. -/
def ResizeToWebP {Err : Type} (L : Libs Err) (ovf : GoFloat → Int)
    (img : Image) (res : Resolution) (quality : Int) : Outcome Err :=
  let origWidth := img.Dx
  let origHeight := img.Dy
  let nw := newWidth ovf origWidth origHeight res.Height
  let resized := L.imagingResize img nw res.Height ResampleFilter.Lanczos
  let q := float32 quality
  let calls := [Call.resize img nw res.Height ResampleFilter.Lanczos, Call.encode resized q]
  match L.webpEncode resized q with
  | (_, some e) => { bytes := [], err := some e, calls := calls }
  | (buf, none) => { bytes := buf, err := none, calls := calls }

/-- Line 39: the raster `imaging.Resize(img, newWidth, res.Height, imaging.Lanczos)`
returns. -/
def resized {Err : Type} (L : Libs Err) (ovf : GoFloat → Int) (img : Image)
    (res : Resolution) : Image :=
  L.imagingResize img (newWidth ovf img.Dx img.Dy res.Height) res.Height
    ResampleFilter.Lanczos

/-- Line 42: what `webp.Encode` writes and returns for that raster. -/
def encoded {Err : Type} (L : Libs Err) (ovf : GoFloat → Int) (img : Image)
    (res : Resolution) (quality : Int) : List Nat × Option Err :=
  L.webpEncode (resized L ovf img res) (float32 quality)

/-! ## The resampler of the `imaging` package

`imaging.Resize` is third-party code.  Its dimension rule is recorded here and
enters the development only as an explicit hypothesis on the resampler. -/

/-- The aspect-preserving size `math.Max(1.0, math.Floor(tmp+0.5))` with
`tmp := float64(a) * float64(b) / float64(c)` that `imaging.Resize` substitutes
for a zero width or height. -/
def imagingAuto (a b c : Int) : GoFloat :=
  let tmp := GoFloat.div 53 (GoFloat.mul 53 (float64 a) (float64 b)) (float64 c)
  GoFloat.max (float64 1) (GoFloat.floor (GoFloat.add 53 tmp (GoFloat.fin false 1 (-1))))

/-- Dimensions of the raster `imaging.Resize(img, width, height, filter)` returns
for a source of `srcW x srcH` pixels: an empty raster for a negative request,
for a `0 x 0` request and for an empty source; a zero width or height is
replaced by the value that keeps the aspect ratio, at least one pixel
(`int(math.Max(1.0, math.Floor(tmp+0.5)))`). -/
def imagingResizeDims (ovf : GoFloat → Int) (srcW srcH width height : Int) : Int × Int :=
  if width < 0 ∨ height < 0 then (0, 0)
  else if width = 0 ∧ height = 0 then (0, 0)
  else if srcW ≤ 0 ∨ srcH ≤ 0 then (0, 0)
  else
    let dstW := if width = 0 then intOfFloat ovf (imagingAuto height srcW srcH) else width
    let dstH := if height = 0 then intOfFloat ovf (imagingAuto dstW srcH srcW) else height
    (dstW, dstH)

/-- A resampler whose result has the dimensions `imaging.Resize` gives it. -/
def FollowsImagingDims {Err : Type} (L : Libs Err) (ovf : GoFloat → Int) : Prop :=
  ∀ (img : Image) (width height : Int) (filter : ResampleFilter),
    ((L.imagingResize img width height filter).Dx,
      (L.imagingResize img width height filter).Dy) =
      imagingResizeDims ovf img.Dx img.Dy width height

/-- The result of an out-of-range `float64` to `int` conversion on amd64: the
conversion instruction yields the smallest `int64` for every such operand. -/
def ovfAmd64 : GoFloat → Int := fun _ => -2 ^ 63

/-- Whether a library call is the encoder call. -/
def Call.isEncode : Call → Bool
  | Call.encode _ _ => true
  | Call.resize _ _ _ _ => false

/-- The height a resample call asks for. -/
def Call.requestedHeight : Call → Option Int
  | Call.resize _ _ height _ => some height
  | Call.encode _ _ => none

/-- The raster an encoder call is given. -/
def Call.encodedRaster : Call → Option Image
  | Call.encode img _ => some img
  | Call.resize _ _ _ _ => none

/-! ## `main` -/

/-- One entry of `ApiResponse.Products`: its `Images.Originals`. -/
structure Product where
  Originals : List String
deriving DecidableEq, Repr

/-- The I/O collaborators of `main`, acting on a world state `σ`: `http.Get`,
`io.ReadAll` on a response body, the JSON decoder reading a response body, and
`image.Decode` on the bytes already read. -/
structure World (σ Err Body : Type) where
  httpGet : σ → String → σ × Except Err Body
  readAll : σ → Body → σ × Except Err (List Nat)
  jsonDecode : σ → Body → σ × Except Err (List Product)
  imageDecode : List Nat → Except Err Image

/-- What `main` does, in order: its `http.Get` calls, its `ResizeToWebP` calls and
the lines it prints (numbers are recorded unformatted). -/
inductive Event (Err : Type) where
  | get (url : String)
  | printNoProducts
  | printProduct (n : Nat)
  | printNoImages
  | printImage (n : Nat) (url : String)
  | printFetchError (e : Err)
  | printReadError (e : Err)
  | printDecodeError (e : Err)
  | printOriginal (len : Nat) (w h : Int)
  | resizeToWebP (img : Image) (res : Resolution) (quality : Int)
  | printConversionError (res : Resolution) (e : Err)
  | printWebp (res : Resolution) (len : Nat)

/-- Line 50. -/
def catalogURL : String := "https://realty.common.geo.paywb.com/api/realty/v1/catalog?id=1633996"

/-- Lines 68-72. -/
def resolutions : List Resolution :=
  [{ Width := 390, Height := 292 }, { Width := 390, Height := 644 },
   { Width := 1428, Height := 775 }]

/-- Line 74. -/
def quality : Int := 80

/-- Lines 114-119: the line printed after one conversion. -/
def conversionLine {Err : Type} (res : Resolution) (out : Outcome Err) : Event Err :=
  match out.err with
  | some e => Event.printConversionError res e
  | none => Event.printWebp res out.bytes.length

/-- Lines 112-120: the loop over the resolutions for one decoded image. -/
def convertAll {Err : Type} (L : Libs Err) (ovf : GoFloat → Int) (img : Image) :
    List Resolution → List (Event Err)
  | [] => []
  | res :: rest =>
    Event.resizeToWebP img res quality ::
      conversionLine res (ResizeToWebP L ovf img res quality) :: convertAll L ovf img rest

/-- Lines 85-120: the body of the loop over the image URLs (`i` is the index). -/
def processImage {σ Err Body : Type} (W : World σ Err Body) (L : Libs Err)
    (ovf : GoFloat → Int) (s : σ) (i : Nat) (imgURL : String) : σ × List (Event Err) :=
  match W.httpGet s imgURL with
  | (s1, Except.error e) =>
    (s1, [Event.printImage (i + 1) imgURL, Event.get imgURL, Event.printFetchError e])
  | (s1, Except.ok body) =>
    match W.readAll s1 body with
    | (s2, Except.error e) =>
      (s2, [Event.printImage (i + 1) imgURL, Event.get imgURL, Event.printReadError e])
    | (s2, Except.ok imgBytes) =>
      match W.imageDecode imgBytes with
      | Except.error e =>
        (s2, [Event.printImage (i + 1) imgURL, Event.get imgURL, Event.printDecodeError e])
      | Except.ok img =>
        (s2, [Event.printImage (i + 1) imgURL, Event.get imgURL,
              Event.printOriginal imgBytes.length img.Dx img.Dy]
              ++ convertAll L ovf img resolutions)

/-- Lines 84-121: the loop over `product.Images.Originals`. -/
def processImages {σ Err Body : Type} (W : World σ Err Body) (L : Libs Err)
    (ovf : GoFloat → Int) (s : σ) (i : Nat) : List String → σ × List (Event Err)
  | [] => (s, [])
  | imgURL :: rest =>
    let r := processImage W L ovf s i imgURL
    let r' := processImages W L ovf r.1 (i + 1) rest
    (r'.1, r.2 ++ r'.2)

/-- Lines 76-122: the loop over `apiResp.Products`. -/
def processProducts {σ Err Body : Type} (W : World σ Err Body) (L : Libs Err)
    (ovf : GoFloat → Int) (s : σ) (pIndex : Nat) : List Product → σ × List (Event Err)
  | [] => (s, [])
  | product :: rest =>
    if product.Originals.length = 0 then
      let r' := processProducts W L ovf s (pIndex + 1) rest
      (r'.1, Event.printProduct (pIndex + 1) :: Event.printNoImages :: r'.2)
    else
      let r := processImages W L ovf s 0 product.Originals
      let r' := processProducts W L ovf r.1 (pIndex + 1) rest
      (r'.1, Event.printProduct (pIndex + 1) :: (r.2 ++ r'.2))

/-- How `main` ends. -/
inductive Exit where
  | returned
  | panicked
deriving DecidableEq, Repr

/-- Go `func main()`. -/
def main {σ Err Body : Type} (W : World σ Err Body) (L : Libs Err)
    (ovf : GoFloat → Int) (s : σ) : σ × List (Event Err) × Exit :=
  match W.httpGet s catalogURL with
  | (s1, Except.error _) => (s1, [Event.get catalogURL], Exit.panicked)
  | (s1, Except.ok body) =>
    match W.jsonDecode s1 body with
    | (s2, Except.error _) => (s2, [Event.get catalogURL], Exit.returned)
    | (s2, Except.ok products) =>
      if products.length = 0 then
        (s2, [Event.get catalogURL, Event.printNoProducts], Exit.returned)
      else
        let r := processProducts W L ovf s2 0 products
        (r.1, Event.get catalogURL :: r.2, Exit.returned)

/-! ## Reading the trace of `main` -/

/-- The URL of an `http.Get` call. -/
def Event.getURL {Err : Type} : Event Err → Option String
  | Event.get url => some url
  | _ => none

/-- The arguments of a `ResizeToWebP` call. -/
def Event.resizeArgs {Err : Type} : Event Err → Option (Image × Resolution × Int)
  | Event.resizeToWebP img res q => some (img, res, q)
  | _ => none

/-- Whether the event is one of the three "skipped image" log lines. -/
def Event.isSkipLog {Err : Type} : Event Err → Bool
  | Event.printFetchError _ => true
  | Event.printReadError _ => true
  | Event.printDecodeError _ => true
  | _ => false

/-- Whether the event is the "Conversion error" log line. -/
def Event.isConversionErrorLog {Err : Type} : Event Err → Bool
  | Event.printConversionError _ _ => true
  | _ => false

/-- Fetch, read and decode of one image URL, as the claim words it: the image
when all three succeed, `none` otherwise, with the world state afterwards. -/
def fetchDecode {σ Err Body : Type} (W : World σ Err Body) (s : σ) (url : String) :
    σ × Option Image :=
  match W.httpGet s url with
  | (s1, Except.error _) => (s1, none)
  | (s1, Except.ok body) =>
    match W.readAll s1 body with
    | (s2, Except.error _) => (s2, none)
    | (s2, Except.ok bytes) =>
      match W.imageDecode bytes with
      | Except.error _ => (s2, none)
      | Except.ok img => (s2, some img)

/-- The outcome of fetching and decoding each URL of a list, in order, with the
world state afterwards. -/
def attempts {σ Err Body : Type} (W : World σ Err Body) (s : σ) :
    List String → σ × List (Option Image)
  | [] => (s, [])
  | url :: rest =>
    let a := fetchDecode W s url
    let r := attempts W a.1 rest
    (r.1, a.2 :: r.2)

/-- The `ResizeToWebP` calls the claim expects for one fetch outcome: one per
configured resolution for a decoded image, none for a skipped one. -/
def expectedCalls : Option Image → List (Image × Resolution × Int)
  | some img => resolutions.map (fun res => (img, res, quality))
  | none => []

/-- All image URLs of a catalog, in array order. -/
def allURLs (products : List Product) : List String :=
  (products.map Product.Originals).flatten

/-- Number of calls in a list whose conversion fails. -/
def failing {Err : Type} (L : Libs Err) (ovf : GoFloat → Int)
    (cs : List (Image × Resolution × Int)) : Nat :=
  (cs.filter (fun a => (ResizeToWebP L ovf a.1 a.2.1 a.2.2).err.isSome)).length

/-! ## Concrete collaborators for the instances below -/

/-- A resampler with the dimension rule of `imaging.Resize` and an encoder that
rejects empty rasters. -/
def demoLibs : Libs String where
  imagingResize := fun img width height _ =>
    { Dx := (imagingResizeDims ovfAmd64 img.Dx img.Dy width height).1,
      Dy := (imagingResizeDims ovfAmd64 img.Dx img.Dy width height).2,
      pix := [] }
  webpEncode := fun img _ =>
    if img.Dx ≤ 0 ∨ img.Dy ≤ 0 then ([], some "empty raster") else ([82, 73, 70, 70], none)

/-- A 10 x 1000 image. -/
def narrowImage : Image := { Dx := 10, Dy := 1000, pix := [] }

/-- A 360 x 480 image. -/
def portraitImage : Image := { Dx := 360, Dy := 480, pix := [] }

/-- A 4294967296 x 1 image. -/
def wideImage : Image := { Dx := 4294967296, Dy := 1, pix := [] }

/-- A catalog of two products, the second without images. -/
def demoProducts : List Product :=
  [{ Originals := ["https://img.example/a.jpg", "https://img.example/missing.jpg"] },
   { Originals := [] }]

/-- A world that counts its requests, serves the catalog and one image, and
fails every other fetch. -/
def demoWorld : World Nat String String where
  httpGet := fun s url =>
    if url = catalogURL then (s + 1, Except.ok "catalog")
    else if url = "https://img.example/a.jpg" then (s + 1, Except.ok "a")
    else (s + 1, Except.error "404")
  readAll := fun s _ => (s, Except.ok [255, 216, 255])
  jsonDecode := fun s _ => (s, Except.ok demoProducts)
  imageDecode := fun bytes => Except.ok { Dx := 1200, Dy := 900, pix := bytes }

/-! ## Specification-side notions for the rounding proofs -/

/-- The properties of a correctly rounded result `q` of the positive operand `x`
at precision `p` that the proofs use: rounding never crosses a representable
number, and the relative error is at most `2 ^ (-p)`. -/
structure Rnd (p : ℕ) (x q : ℚ) : Prop where
  le_of_le : ∀ (M : ℕ) (E : ℤ), M < 2 ^ p → x ≤ (M : ℚ) * 2 ^ E → q ≤ (M : ℚ) * 2 ^ E
  ge_of_ge : ∀ (M : ℕ) (E : ℤ), M < 2 ^ p → (M : ℚ) * 2 ^ E ≤ x → (M : ℚ) * 2 ^ E ≤ q
  err : |q - x| ≤ x / 2 ^ p

/-- The float `f` is finite, non-negative and has the value `q`. -/
def IsVal (f : GoFloat) (q : ℚ) : Prop :=
  ∃ (m : ℕ) (e : ℤ), f = GoFloat.fin false m e ∧ (m : ℚ) * 2 ^ e = q

set_option maxRecDepth 100000

/-! ## Rounding lemmas -/

theorem ilog2_spec : ∀ (fuel n : Nat), 0 < n → n ≤ fuel →
    2 ^ ilog2 fuel n ≤ n ∧ n < 2 ^ (ilog2 fuel n + 1)
  | 0, n, h0, hf => by omega
  | fuel + 1, n, h0, hf => by
    unfold ilog2
    split_ifs with h2
    · constructor <;> norm_num <;> omega
    · have ih := ilog2_spec fuel (n / 2) (by omega) (by omega)
      rw [pow_succ, pow_succ]
      constructor <;> omega

theorem floorLog2Frac_spec (n d : Nat) (hn : 0 < n) (hd : 0 < d) :
    (2 : ℚ) ^ (floorLog2Frac n d) ≤ (n : ℚ) / d ∧
      (n : ℚ) / d < (2 : ℚ) ^ (floorLog2Frac n d + 1) := by
  obtain ⟨ha1, ha2⟩ := ilog2_spec n n hn le_rfl
  obtain ⟨hb1, hb2⟩ := ilog2_spec d d hd le_rfl
  have hdq : (0 : ℚ) < d := by exact_mod_cast hd
  have h2a : (0 : ℚ) < 2 ^ ilog2 n n := by positivity
  have h2b : (0 : ℚ) < 2 ^ ilog2 d d := by positivity
  have e1 : (2 : ℚ) ^ ((ilog2 n n : ℤ) - (ilog2 d d : ℤ)) = 2 ^ ilog2 n n / 2 ^ ilog2 d d := by
    rw [zpow_sub₀ (by norm_num), zpow_natCast, zpow_natCast]
  have ha1q : (2 : ℚ) ^ ilog2 n n ≤ n := by exact_mod_cast ha1
  have ha2q : (n : ℚ) < 2 ^ ilog2 n n * 2 := by
    have := ha2; rw [pow_succ] at this; exact_mod_cast this
  have hb1q : (2 : ℚ) ^ ilog2 d d ≤ d := by exact_mod_cast hb1
  have hb2q : (d : ℚ) < 2 ^ ilog2 d d * 2 := by
    have := hb2; rw [pow_succ] at this; exact_mod_cast this
  unfold floorLog2Frac
  simp only
  split_ifs with hc
  · have hcq : (n : ℚ) * 2 ^ ilog2 d d < d * 2 ^ ilog2 n n := by exact_mod_cast hc
    rw [sub_add_cancel, zpow_sub₀ (by norm_num), e1, zpow_one]
    constructor
    · rw [div_div, div_le_div_iff₀ (by positivity) hdq]
      nlinarith
    · rw [div_lt_div_iff₀ hdq h2b]
      linarith
  · have hcq : (d : ℚ) * 2 ^ ilog2 n n ≤ n * 2 ^ ilog2 d d := by
      have := not_lt.mp hc; exact_mod_cast this
    rw [zpow_add₀ (by norm_num), e1, zpow_one]
    constructor
    · rw [div_le_div_iff₀ h2b hdq]
      linarith
    · rw [div_mul_eq_mul_div, div_lt_div_iff₀ hdq h2b]
      nlinarith

theorem roundHalfEven_cases (n d : Nat) :
    (roundHalfEven n d = n / d ∧ 2 * (n % d) ≤ d) ∨
      (roundHalfEven n d = n / d + 1 ∧ d ≤ 2 * (n % d)) := by
  unfold roundHalfEven
  simp only
  split_ifs <;> omega

theorem roundHalfEven_spec (n d : Nat) (hd : 0 < d) :
    |(roundHalfEven n d : ℚ) - (n : ℚ) / d| ≤ 1 / 2 ∧
      (∀ z : ℕ, (z : ℚ) ≤ (n : ℚ) / d → z ≤ roundHalfEven n d) ∧
      (∀ z : ℕ, (n : ℚ) / d ≤ z → roundHalfEven n d ≤ z) := by
  have hdq : (0 : ℚ) < d := by exact_mod_cast hd
  have hdm : d * (n / d) + n % d = n := Nat.div_add_mod n d
  have hr : n % d < d := Nat.mod_lt n hd
  have hdmq : (d : ℚ) * ((n / d : ℕ) : ℚ) + ((n % d : ℕ) : ℚ) = n := by exact_mod_cast hdm
  have hrq : ((n % d : ℕ) : ℚ) < d := by exact_mod_cast hr
  have hr0 : (0 : ℚ) ≤ ((n % d : ℕ) : ℚ) := by positivity
  have hT : (n : ℚ) / d = ((n / d : ℕ) : ℚ) + ((n % d : ℕ) : ℚ) / d := by
    field_simp; linarith
  have hfl : ∀ z : ℕ, (z : ℚ) ≤ (n : ℚ) / d → z ≤ n / d := by
    intro z hz
    rw [le_div_iff₀ hdq] at hz
    have : z * d ≤ n := by exact_mod_cast hz
    exact (Nat.le_div_iff_mul_le hd).mpr this
  rcases roundHalfEven_cases n d with ⟨hm, h2⟩ | ⟨hm, h2⟩
  · have h2q : (2 : ℚ) * ((n % d : ℕ) : ℚ) ≤ d := by exact_mod_cast h2
    rw [hm]
    refine ⟨?_, hfl, ?_⟩
    · rw [hT, abs_le]
      have : ((n % d : ℕ) : ℚ) / d ≤ 1 / 2 := by
        rw [div_le_div_iff₀ hdq (by norm_num)]; linarith
      have : 0 ≤ ((n % d : ℕ) : ℚ) / d := by positivity
      constructor <;> linarith
    · intro z hz
      have : ((n / d : ℕ) : ℚ) ≤ z := by
        have : 0 ≤ ((n % d : ℕ) : ℚ) / d := by positivity
        linarith
      exact_mod_cast this
  · have h2q : (d : ℚ) ≤ 2 * ((n % d : ℕ) : ℚ) := by exact_mod_cast h2
    rw [hm]
    have hfrac1 : ((n % d : ℕ) : ℚ) / d < 1 := by
      rw [div_lt_one hdq]; exact hrq
    have hfrac2 : 1 / 2 ≤ ((n % d : ℕ) : ℚ) / d := by
      rw [div_le_div_iff₀ (by norm_num) hdq]; linarith
    refine ⟨?_, ?_, ?_⟩
    · rw [hT, abs_le]
      push_cast
      constructor <;> linarith
    · intro z hz
      have := hfl z hz
      omega
    · intro z hz
      have hlt : ((n / d : ℕ) : ℚ) < z := by linarith
      have : n / d < z := by exact_mod_cast hlt
      omega


theorem roundBin_scaled (p n d : Nat) (x : Int) (hn : 0 < n) (hd : 0 < d) :
    ∃ T : ℚ, (n : ℚ) / d * 2 ^ x = T * 2 ^ (roundBin p n d x).2 ∧
      (2 : ℚ) ^ p / 2 ≤ T ∧
      |((roundBin p n d x).1 : ℚ) - T| ≤ 1 / 2 ∧
      (∀ z : ℕ, (z : ℚ) ≤ T → z ≤ (roundBin p n d x).1) ∧
      (∀ z : ℕ, T ≤ (z : ℚ) → (roundBin p n d x).1 ≤ z) := by
  obtain ⟨hk1, -⟩ := floorLog2Frac_spec n d hn hd
  have hdq : (0 : ℚ) < d := by exact_mod_cast hd
  have h2 : (2 : ℚ) ≠ 0 := by norm_num
  set s : ℤ := floorLog2Frac n d - ((p : ℤ) - 1) with hs
  have hk : floorLog2Frac n d = s + ((p : ℤ) - 1) := by rw [hs]; ring
  have hspos : (0 : ℚ) < 2 ^ s := by positivity
  refine ⟨(n : ℚ) / d / 2 ^ s, ?_, ?_, ?_⟩
  · show (n : ℚ) / d * 2 ^ x = (n : ℚ) / d / 2 ^ s * 2 ^ (s + x)
    rw [zpow_add₀ h2]; field_simp; ring
  · rw [hk, zpow_add₀ h2, zpow_sub_one₀ h2, zpow_natCast] at hk1
    rw [le_div_iff₀ hspos]
    calc (2 : ℚ) ^ p / 2 * 2 ^ s = 2 ^ s * (2 ^ p * 2⁻¹) := by ring
      _ ≤ (n : ℚ) / d := hk1
  · by_cases h0 : 0 ≤ s
    · have hm : (roundBin p n d x).1 = roundHalfEven n (d * 2 ^ s.toNat) := by
        simp only [roundBin, ← hs, if_pos h0]
      have hT : (n : ℚ) / d / 2 ^ s = (n : ℚ) / ((d * 2 ^ s.toNat : ℕ) : ℚ) := by
        have : (2 : ℚ) ^ s = 2 ^ s.toNat := by
          rw [← zpow_natCast, Int.toNat_of_nonneg h0]
        rw [this, div_div]; push_cast; rfl
      rw [hm, hT]
      exact roundHalfEven_spec n (d * 2 ^ s.toNat) (by positivity)
    · have hm : (roundBin p n d x).1 = roundHalfEven (n * 2 ^ (-s).toNat) d := by
        simp only [roundBin, ← hs, if_neg h0]
      have hT : (n : ℚ) / d / 2 ^ s = ((n * 2 ^ (-s).toNat : ℕ) : ℚ) / d := by
        have : (2 : ℚ) ^ s = (2 ^ (-s).toNat)⁻¹ := by
          rw [← zpow_natCast, Int.toNat_of_nonneg (by omega), zpow_neg, inv_inv]
        rw [this]; push_cast; field_simp
      rw [hm, hT]
      exact roundHalfEven_spec (n * 2 ^ (-s).toNat) d hd

theorem zpow_two_le_half (F : ℤ) (hF : F < 0) : (2 : ℚ) ^ F ≤ 1 / 2 := by
  have h : (2 : ℚ) ^ F ≤ 2 ^ (-1 : ℤ) := zpow_le_zpow_right₀ (by norm_num) (by omega)
  simpa using h

theorem roundBin_rnd (p n d : Nat) (x : Int) (hn : 0 < n) (hd : 0 < d) :
    Rnd p ((n : ℚ) / d * 2 ^ x)
      (((roundBin p n d x).1 : ℚ) * 2 ^ (roundBin p n d x).2) := by
  obtain ⟨T, hQ, hT1, habs, hlo, hhi⟩ := roundBin_scaled p n d x hn hd
  set m := (roundBin p n d x).1
  set e := (roundBin p n d x).2
  have h2 : (2 : ℚ) ≠ 0 := by norm_num
  have hepos : (0 : ℚ) < 2 ^ e := by positivity
  have hppos : (0 : ℚ) < 2 ^ p := by positivity
  rw [hQ]
  have split : ∀ (M : ℕ) (E : ℤ), (M : ℚ) * 2 ^ E = (M : ℚ) * 2 ^ (E - e) * 2 ^ e := by
    intro M E
    rw [mul_assoc, ← zpow_add₀ h2, sub_add_cancel]
  have nat_of : ∀ (M : ℕ) (F : ℤ), 0 ≤ F →
      (((M * 2 ^ F.toNat : ℕ) : ℕ) : ℚ) = (M : ℚ) * 2 ^ F := by
    intro M F hF
    push_cast
    rw [← zpow_natCast, Int.toNat_of_nonneg hF]
  refine ⟨?_, ?_, ?_⟩
  · intro M E hM hle
    rw [split M E] at hle ⊢
    have hle' : T ≤ (M : ℚ) * 2 ^ (E - e) := le_of_mul_le_mul_right hle hepos
    have hMq : (M : ℚ) < 2 ^ p := by exact_mod_cast hM
    by_cases hF : 0 ≤ E - e
    · have := hhi (M * 2 ^ (E - e).toNat) (by rw [nat_of M _ hF]; exact hle')
      have hq : (m : ℚ) ≤ ((M * 2 ^ (E - e).toNat : ℕ) : ℚ) := by exact_mod_cast this
      rw [nat_of M _ hF] at hq
      exact mul_le_mul_of_nonneg_right hq hepos.le
    · have hh := zpow_two_le_half (E - e) (by omega)
      have : (M : ℚ) * 2 ^ (E - e) ≤ (M : ℚ) * (1 / 2) :=
        mul_le_mul_of_nonneg_left hh (by positivity)
      linarith
  · intro M E hM hle
    rw [split M E] at hle ⊢
    have hle' : (M : ℚ) * 2 ^ (E - e) ≤ T := le_of_mul_le_mul_right hle hepos
    have hMq : (M : ℚ) + 1 ≤ 2 ^ p := by exact_mod_cast hM
    apply mul_le_mul_of_nonneg_right _ hepos.le
    by_cases hF : 0 ≤ E - e
    · have := hlo (M * 2 ^ (E - e).toNat) (by rw [nat_of M _ hF]; exact hle')
      have hq : ((M * 2 ^ (E - e).toNat : ℕ) : ℚ) ≤ (m : ℚ) := by exact_mod_cast this
      rw [nat_of M _ hF] at hq
      exact hq
    · have hh := zpow_two_le_half (E - e) (by omega)
      have : (M : ℚ) * 2 ^ (E - e) ≤ (M : ℚ) * (1 / 2) :=
        mul_le_mul_of_nonneg_left hh (by positivity)
      have := (abs_le.mp habs).1
      linarith
  · rw [← sub_mul, abs_mul, abs_of_pos hepos]
    calc |(m : ℚ) - T| * 2 ^ e ≤ 1 / 2 * 2 ^ e := mul_le_mul_of_nonneg_right habs hepos.le
      _ = (2 : ℚ) ^ p / 2 * 2 ^ e / 2 ^ p := by field_simp; ring
      _ ≤ T * 2 ^ e / 2 ^ p := by
        apply div_le_div_of_nonneg_right _ hppos.le
        exact mul_le_mul_of_nonneg_right hT1 hepos.le


theorem Rnd.exact {p : ℕ} {x q : ℚ} (h : Rnd p x q) (M : ℕ) (E : ℤ) (hM : M < 2 ^ p)
    (hx : x = (M : ℚ) * 2 ^ E) : q = x := by
  apply le_antisymm
  · rw [hx]; exact h.le_of_le M E hM hx.le
  · rw [hx]; exact h.ge_of_ge M E hM hx.ge

theorem Rnd.exact_nat {p : ℕ} {x q : ℚ} (h : Rnd p x q) (M : ℕ) (hM : M < 2 ^ p)
    (hx : x = (M : ℚ)) : q = x :=
  h.exact M 0 hM (by simpa using hx)

theorem Rnd.pos {x q : ℚ} (h : Rnd 53 x q) (hx : 0 < x) : 0 < q := by
  have h1 := (abs_le.mp h.err).1
  have h2 : x / 2 ^ 53 < x := div_lt_self hx (by norm_num)
  linarith

theorem ofFrac_isVal (p n d : Nat) (x : Int) (hn : 0 < n) (hd : 0 < d) :
    ∃ q, IsVal (GoFloat.ofFrac p false n d x) q ∧ Rnd p ((n : ℚ) / d * 2 ^ x) q := by
  refine ⟨_, ⟨(roundBin p n d x).1, (roundBin p n d x).2, ?_, rfl⟩, roundBin_rnd p n d x hn hd⟩
  unfold GoFloat.ofFrac
  rw [if_neg (by omega)]

theorem float64_isVal (n : Int) (hn : 0 < n) :
    ∃ q, IsVal (float64 n) q ∧ Rnd 53 (n : ℚ) q := by
  obtain ⟨q, hv, hr⟩ := ofFrac_isVal 53 n.natAbs 1 0 (by omega) (by norm_num)
  refine ⟨q, ?_, ?_⟩
  · unfold float64
    rw [decide_eq_false (by omega)]
    exact hv
  · have hc : ((n.natAbs : ℕ) : ℚ) = (n : ℚ) := by
      rw [Nat.cast_natAbs, abs_of_pos hn]
    rw [Nat.cast_one, div_one, zpow_zero, mul_one, hc] at hr
    exact hr

theorem isVal_man_pos {m : ℕ} {e : ℤ} {q : ℚ} (h : (m : ℚ) * 2 ^ e = q) (hq : 0 < q) :
    0 < m := by
  rcases Nat.eq_zero_or_pos m with h0 | h0
  · subst h0; simp at h; linarith
  · exact h0

theorem div_isVal {a b : GoFloat} {qa qb : ℚ} (ha : IsVal a qa) (hb : IsVal b qb)
    (hqa : 0 < qa) (hqb : 0 < qb) :
    ∃ q, IsVal (GoFloat.div 53 a b) q ∧ Rnd 53 (qa / qb) q := by
  obtain ⟨m, e, rfl, hm⟩ := ha
  obtain ⟨m', e', rfl, hm'⟩ := hb
  have hmp := isVal_man_pos hm hqa
  have hmp' := isVal_man_pos hm' hqb
  obtain ⟨q, hv, hr⟩ := ofFrac_isVal 53 m m' (e - e') hmp hmp'
  refine ⟨q, ?_, ?_⟩
  · simp only [GoFloat.div, if_neg (Nat.pos_iff_ne_zero.mp hmp'), Bool.xor_false]
    exact hv
  · have : (m : ℚ) / m' * 2 ^ (e - e') = qa / qb := by
      rw [← hm, ← hm', zpow_sub₀ (by norm_num : (2 : ℚ) ≠ 0)]
      have : (0 : ℚ) < 2 ^ e' := by positivity
      have : (m' : ℚ) ≠ 0 := by exact_mod_cast (Nat.pos_iff_ne_zero.mp hmp')
      field_simp
    rw [this] at hr
    exact hr

theorem mul_isVal {a b : GoFloat} {qa qb : ℚ} (ha : IsVal a qa) (hb : IsVal b qb)
    (hqa : 0 < qa) (hqb : 0 < qb) :
    ∃ q, IsVal (GoFloat.mul 53 a b) q ∧ Rnd 53 (qa * qb) q := by
  obtain ⟨m, e, rfl, hm⟩ := ha
  obtain ⟨m', e', rfl, hm'⟩ := hb
  have hmp := isVal_man_pos hm hqa
  have hmp' := isVal_man_pos hm' hqb
  obtain ⟨q, hv, hr⟩ := ofFrac_isVal 53 (m * m') 1 (e + e') (Nat.mul_pos hmp hmp') (by norm_num)
  refine ⟨q, ?_, ?_⟩
  · simp only [GoFloat.mul, Bool.xor_false]
    exact hv
  · have : ((m * m' : ℕ) : ℚ) / (1 : ℕ) * 2 ^ (e + e') = qa * qb := by
      rw [← hm, ← hm', zpow_add₀ (by norm_num : (2 : ℚ) ≠ 0)]
      push_cast; ring
    rw [this] at hr
    exact hr

theorem trunc_eq_floor (m : ℕ) (e : ℤ) :
    GoFloat.trunc false m e = ⌊(m : ℚ) * 2 ^ e⌋ := by
  unfold GoFloat.trunc
  simp only [Bool.false_eq_true, if_false]
  split_ifs with h0
  · have : (m : ℚ) * 2 ^ e = (((m * 2 ^ e.toNat : ℕ) : ℤ) : ℚ) := by
      push_cast
      rw [← zpow_natCast, Int.toNat_of_nonneg h0]
    rw [this, Int.floor_intCast]
  · have : (m : ℚ) * 2 ^ e = ((m : ℤ) : ℚ) / ((2 ^ (-e).toNat : ℕ) : ℚ) := by
      have h2 : (2 : ℚ) ^ e = (2 ^ (-e).toNat)⁻¹ := by
        rw [← zpow_natCast, Int.toNat_of_nonneg (by omega), zpow_neg, inv_inv]
      rw [h2]; push_cast; rw [div_eq_mul_inv]
    rw [this, Rat.floor_intCast_div_natCast]
    push_cast
    rfl

theorem intOfFloat_isVal (ovf : GoFloat → Int) {f : GoFloat} {q : ℚ} (hf : IsVal f q) :
    (q < 2 ^ 63 → intOfFloat ovf f = ⌊q⌋) ∧ (2 ^ 63 ≤ q → intOfFloat ovf f = ovf f) := by
  obtain ⟨m, e, rfl, hm⟩ := hf
  have hq0 : (0 : ℚ) ≤ q := by rw [← hm]; positivity
  have hfl0 : (0 : ℤ) ≤ ⌊q⌋ := Int.floor_nonneg.mpr hq0
  simp only [intOfFloat, trunc_eq_floor, hm]
  constructor
  · intro hlt
    have : ⌊q⌋ < 2 ^ 63 := by
      rw [Int.floor_lt]; exact_mod_cast hlt
    rw [if_pos ⟨by omega, this⟩]
  · intro hge
    have : (2 : ℤ) ^ 63 ≤ ⌊q⌋ := by
      rw [Int.le_floor]; exact_mod_cast hge
    rw [if_neg (by omega)]

theorem IsVal.unique {f : GoFloat} {q q' : ℚ} (h : IsVal f q) (h' : IsVal f q') : q = q' := by
  obtain ⟨m, e, hf, hm⟩ := h
  obtain ⟨m', e', hf', hm'⟩ := h'
  rw [hf] at hf'
  injection hf' with _ h1 h2
  subst h1; subst h2
  rw [← hm, ← hm']

theorem newWidth_spec (ovf : GoFloat → Int) (w H h : Int) (hw : 0 < w) (hH : 0 < H)
    (hh : 0 < h) :
    ∃ qw qH qh r pr : ℚ, Rnd 53 (w : ℚ) qw ∧ Rnd 53 (H : ℚ) qH ∧ Rnd 53 (h : ℚ) qh ∧
      Rnd 53 (qh / qH) r ∧ Rnd 53 (qw * r) pr ∧ 0 < qw ∧ 0 < qH ∧ 0 < qh ∧ 0 < r ∧ 0 < pr ∧
      (h = H → qh = qH) ∧
      (pr < 2 ^ 63 → newWidth ovf w H h = ⌊pr⌋) ∧
      (2 ^ 63 ≤ pr → ∃ f, newWidth ovf w H h = ovf f) := by
  obtain ⟨qw, vw, rw_⟩ := float64_isVal w hw
  obtain ⟨qH, vH, rH⟩ := float64_isVal H hH
  obtain ⟨qh, vh, rh⟩ := float64_isVal h hh
  have pw := rw_.pos (by exact_mod_cast hw)
  have pH := rH.pos (by exact_mod_cast hH)
  have ph := rh.pos (by exact_mod_cast hh)
  obtain ⟨r, vr, rr⟩ := div_isVal vh vH ph pH
  have pr_ := rr.pos (div_pos ph pH)
  obtain ⟨pr, vp, rp⟩ := mul_isVal vw vr pw pr_
  have pp := rp.pos (mul_pos pw pr_)
  obtain ⟨i1, i2⟩ := intOfFloat_isVal ovf vp
  refine ⟨qw, qH, qh, r, pr, rw_, rH, rh, rr, rp, pw, pH, ph, pr_, pp, ?_, i1,
    fun h => ⟨_, i2 h⟩⟩
  intro heq
  subst heq
  exact vh.unique vH

theorem Rnd.exact_int {x q : ℚ} (h : Rnd 53 x q) (n : ℤ) (h0 : 0 < n) (hn : n < 2 ^ 53)
    (hx : x = (n : ℚ)) : q = (n : ℚ) := by
  have hc : ((n.toNat : ℕ) : ℚ) = (n : ℚ) := by
    rw [← Int.cast_natCast, Int.toNat_of_nonneg h0.le]
  rw [h.exact_nat n.toNat (by omega) (by rw [hx, hc]), hx]

theorem newWidth_same_height (ovf : GoFloat → Int) (w H : Int) (hw : 0 < w) (hw2 : w < 2 ^ 53)
    (hH : 0 < H) : newWidth ovf w H H = w := by
  obtain ⟨qw, qH, qh, r, pr, rw_, rH, rh, rr, rp, pw, pH, ph, pr_, pp, heq, hin, -⟩ :=
    newWidth_spec ovf w H H hw hH hH
  have e1 : qw = (w : ℚ) := rw_.exact_int w hw hw2 rfl
  have e2 : qh / qH = 1 := by rw [heq rfl, div_self pH.ne']
  have e3 : r = 1 := by
    have := rr.exact_nat 1 (by norm_num) (by rw [e2]; norm_num)
    rw [this, e2]
  have e4 : pr = (w : ℚ) := by
    rw [e1, e3, mul_one] at rp
    exact rp.exact_int w hw hw2 rfl
  have hlt : pr < 2 ^ 63 := by
    rw [e4]
    have : (w : ℚ) < 2 ^ 53 := by exact_mod_cast hw2
    linarith
  rw [hin hlt, e4, Int.floor_intCast]


theorem floor_div_bounds (K H : Int) (hH : 0 < H) :
    ((K / H : ℤ) : ℚ) ≤ (K : ℚ) / H ∧ (K : ℚ) / H < ((K / H : ℤ) : ℚ) + 1 ∧
      (K % H ≠ 0 → ((K / H : ℤ) : ℚ) + 1 / H ≤ (K : ℚ) / H) ∧
      (K : ℚ) / H + 1 / H ≤ ((K / H : ℤ) : ℚ) + 1 := by
  have hHq : (0 : ℚ) < H := by exact_mod_cast hH
  have hdm : H * (K / H) + K % H = K := Int.ediv_add_emod K H
  have h0 : 0 ≤ K % H := Int.emod_nonneg K hH.ne'
  have h1 : K % H < H := Int.emod_lt_of_pos K hH
  have hdmq : (H : ℚ) * ((K / H : ℤ) : ℚ) + ((K % H : ℤ) : ℚ) = K := by exact_mod_cast hdm
  have h0q : (0 : ℚ) ≤ ((K % H : ℤ) : ℚ) := by exact_mod_cast h0
  have h1q : ((K % H : ℤ) : ℚ) + 1 ≤ H := by exact_mod_cast h1
  refine ⟨?_, ?_, ?_, ?_⟩
  · rw [le_div_iff₀ hHq]; nlinarith
  · rw [div_lt_iff₀ hHq]; nlinarith
  · intro hne
    have : 1 ≤ K % H := by omega
    have hq : (1 : ℚ) ≤ ((K % H : ℤ) : ℚ) := by exact_mod_cast this
    rw [le_div_iff₀ hHq]
    have : (((K / H : ℤ) : ℚ) + 1 / H) * H = ((K / H : ℤ) : ℚ) * H + 1 := by field_simp
    nlinarith
  · rw [← add_div, div_le_iff₀ hHq]; nlinarith


theorem newWidth_err (ovf : GoFloat → Int) (w H h : Int) (hw : 1 ≤ w) (hH : 1 ≤ H)
    (hh : 1 ≤ h) (bw : w < 2 ^ 53) (bH : H < 2 ^ 53) (bh : h < 2 ^ 53) :
    ∃ pr : ℚ, (pr < 2 ^ 63 → newWidth ovf w H h = ⌊pr⌋) ∧
      ((w * h : ℤ) : ℚ) / H * (1 - 1 / 2 ^ 53) * (1 - 1 / 2 ^ 53) ≤ pr ∧
      pr ≤ ((w * h : ℤ) : ℚ) / H * (1 + 1 / 2 ^ 53) * (1 + 1 / 2 ^ 53) := by
  obtain ⟨qw, qH, qh, r, pr, rw_, rH, rh, rr, rp, pw, pH, ph, pr_, pp, -, hin, -⟩ :=
    newWidth_spec ovf w H h (by omega) (by omega) (by omega)
  have e1 : qw = (w : ℚ) := rw_.exact_int w (by omega) bw rfl
  have e2 : qH = (H : ℚ) := rH.exact_int H (by omega) bH rfl
  have e3 : qh = (h : ℚ) := rh.exact_int h (by omega) bh rfl
  rw [e1] at rp pw
  rw [e2, e3] at rr
  rw [e2] at pH
  rw [e3] at ph
  refine ⟨pr, hin, ?_, ?_⟩
  · have ha := (abs_le.mp rr.err).1
    have hb := (abs_le.mp rp.err).1
    have h1 : (h : ℚ) / H * (1 - 1 / 2 ^ 53) ≤ r := by linarith
    have h2 : (w : ℚ) * r * (1 - 1 / 2 ^ 53) ≤ pr := by linarith
    have h3 : (w : ℚ) * ((h : ℚ) / H * (1 - 1 / 2 ^ 53)) ≤ w * r :=
      mul_le_mul_of_nonneg_left h1 pw.le
    have h4 : (w : ℚ) * ((h : ℚ) / H * (1 - 1 / 2 ^ 53)) * (1 - 1 / 2 ^ 53) ≤
        w * r * (1 - 1 / 2 ^ 53) :=
      mul_le_mul_of_nonneg_right h3 (by norm_num)
    have h5 : ((w * h : ℤ) : ℚ) / H * (1 - 1 / 2 ^ 53) * (1 - 1 / 2 ^ 53) =
        (w : ℚ) * ((h : ℚ) / H * (1 - 1 / 2 ^ 53)) * (1 - 1 / 2 ^ 53) := by
      push_cast; ring
    linarith
  · have ha := (abs_le.mp rr.err).2
    have hb := (abs_le.mp rp.err).2
    have h1 : r ≤ (h : ℚ) / H * (1 + 1 / 2 ^ 53) := by linarith
    have h2 : pr ≤ (w : ℚ) * r * (1 + 1 / 2 ^ 53) := by linarith
    have h3 : (w : ℚ) * r ≤ w * ((h : ℚ) / H * (1 + 1 / 2 ^ 53)) :=
      mul_le_mul_of_nonneg_left h1 pw.le
    have h4 : (w : ℚ) * r * (1 + 1 / 2 ^ 53) ≤
        w * ((h : ℚ) / H * (1 + 1 / 2 ^ 53)) * (1 + 1 / 2 ^ 53) :=
      mul_le_mul_of_nonneg_right h3 (by norm_num)
    have h5 : ((w * h : ℤ) : ℚ) / H * (1 + 1 / 2 ^ 53) * (1 + 1 / 2 ^ 53) =
        (w : ℚ) * ((h : ℚ) / H * (1 + 1 / 2 ^ 53)) * (1 + 1 / 2 ^ 53) := by
      push_cast; ring
    linarith

/-! ## Lemmas on `ResizeToWebP` -/

theorem intOfFloat_of_fits (ovf ovf' : GoFloat → Int) (f : GoFloat)
    (h : f.fitsInt = true) : intOfFloat ovf f = intOfFloat ovf' f := by
  cases f with
  | fin neg m e =>
    simp only [GoFloat.fitsInt, decide_eq_true_eq] at h
    simp only [intOfFloat, if_pos h]
  | inf neg => simp [GoFloat.fitsInt] at h
  | nan => simp [GoFloat.fitsInt] at h

theorem newWidth_of_fits (ovf ovf' : GoFloat → Int) (w H h : Int)
    (hf : (scaledWidth w H h).fitsInt = true) : newWidth ovf w H h = newWidth ovf' w H h :=
  intOfFloat_of_fits ovf ovf' _ hf

theorem ResizeToWebP_calls {Err : Type} (L : Libs Err) (ovf : GoFloat → Int) (img : Image)
    (res : Resolution) (q : Int) :
    (ResizeToWebP L ovf img res q).calls =
      [Call.resize img (newWidth ovf img.Dx img.Dy res.Height) res.Height
          ResampleFilter.Lanczos,
        Call.encode (L.imagingResize img (newWidth ovf img.Dx img.Dy res.Height) res.Height
          ResampleFilter.Lanczos) (float32 q)] := by
  unfold ResizeToWebP
  simp only
  split <;> rfl

theorem ResizeToWebP_result {Err : Type} (L : Libs Err) (ovf : GoFloat → Int) (img : Image)
    (res : Resolution) (q : Int) (buf : List Nat) (oe : Option Err)
    (henc : L.webpEncode (L.imagingResize img (newWidth ovf img.Dx img.Dy res.Height)
      res.Height ResampleFilter.Lanczos) (float32 q) = (buf, oe)) :
    (ResizeToWebP L ovf img res q).err = oe ∧
      (ResizeToWebP L ovf img res q).bytes = (if oe.isSome then [] else buf) := by
  unfold ResizeToWebP
  simp only [henc]
  cases oe <;> simp

/-! ## Lemmas on the loops of `main` -/

theorem conversionLine_getURL {Err : Type} (res : Resolution) (out : Outcome Err) :
    (conversionLine res out).getURL = none := by
  unfold conversionLine; cases out.err <;> rfl

theorem conversionLine_resizeArgs {Err : Type} (res : Resolution) (out : Outcome Err) :
    (conversionLine res out).resizeArgs = none := by
  unfold conversionLine; cases out.err <;> rfl

theorem conversionLine_isSkipLog {Err : Type} (res : Resolution) (out : Outcome Err) :
    (conversionLine res out).isSkipLog = false := by
  unfold conversionLine; cases out.err <;> rfl

theorem conversionLine_isConversionErrorLog {Err : Type} (res : Resolution)
    (out : Outcome Err) : (conversionLine res out).isConversionErrorLog = out.err.isSome := by
  unfold conversionLine; cases out.err <;> rfl

theorem failing_append {Err : Type} (L : Libs Err) (ovf : GoFloat → Int)
    (cs cs' : List (Image × Resolution × Int)) :
    failing L ovf (cs ++ cs') = failing L ovf cs + failing L ovf cs' := by
  simp [failing]

theorem convertAll_view {Err : Type} (L : Libs Err) (ovf : GoFloat → Int) (img : Image)
    (rs : List Resolution) :
    (convertAll L ovf img rs).filterMap Event.getURL = [] ∧
      (convertAll L ovf img rs).filterMap Event.resizeArgs =
        rs.map (fun res => (img, res, quality)) ∧
      (convertAll L ovf img rs).filter Event.isSkipLog = [] ∧
      ((convertAll L ovf img rs).filter Event.isConversionErrorLog).length =
        failing L ovf (rs.map (fun res => (img, res, quality))) := by
  induction rs with
  | nil => exact ⟨rfl, rfl, rfl, rfl⟩
  | cons r rest ih =>
    obtain ⟨h1, h2, h3, h4⟩ := ih
    have hc : convertAll L ovf img (r :: rest) =
        Event.resizeToWebP img r quality ::
          conversionLine r (ResizeToWebP L ovf img r quality) :: convertAll L ovf img rest :=
      rfl
    rw [hc]
    refine ⟨?_, ?_, ?_, ?_⟩
    · rw [List.filterMap_cons_none rfl, List.filterMap_cons_none (conversionLine_getURL _ _), h1]
    · have e : ∀ (a : Event Err) (tl : List (Event Err)),
          List.filterMap Event.resizeArgs (Event.resizeToWebP img r quality :: a :: tl) =
            (img, r, quality) :: List.filterMap Event.resizeArgs (a :: tl) :=
        fun _ _ => rfl
      rw [e, List.filterMap_cons_none (conversionLine_resizeArgs _ _), h2]
      rfl
    · rw [List.filter_cons_of_neg (by simp [Event.isSkipLog]),
        List.filter_cons_of_neg (by simp [conversionLine_isSkipLog]), h3]
    · rw [List.filter_cons_of_neg (by simp [Event.isConversionErrorLog])]
      simp only [failing, List.map_cons] at h4 ⊢
      cases hE : (ResizeToWebP L ovf img r quality).err with
      | none =>
        rw [List.filter_cons_of_neg (by simp [conversionLine_isConversionErrorLog, hE]),
          List.filter_cons_of_neg (by simp [hE]), h4]
      | some e =>
        rw [List.filter_cons_of_pos (by simp [conversionLine_isConversionErrorLog, hE]),
          List.filter_cons_of_pos (by simp [hE]), List.length_cons, List.length_cons, h4]

theorem processImage_view {σ Err Body : Type} (W : World σ Err Body) (L : Libs Err)
    (ovf : GoFloat → Int) (s : σ) (i : Nat) (url : String) :
    (processImage W L ovf s i url).1 = (fetchDecode W s url).1 ∧
      (processImage W L ovf s i url).2.filterMap Event.getURL = [url] ∧
      (processImage W L ovf s i url).2.filterMap Event.resizeArgs =
        expectedCalls (fetchDecode W s url).2 ∧
      ((processImage W L ovf s i url).2.filter Event.isSkipLog).length =
        ([(fetchDecode W s url).2].filter Option.isNone).length ∧
      ((processImage W L ovf s i url).2.filter Event.isConversionErrorLog).length =
        failing L ovf (expectedCalls (fetchDecode W s url).2) := by
  unfold processImage fetchDecode
  rcases hg : W.httpGet s url with ⟨s1, e | body⟩
  · exact ⟨rfl, rfl, rfl, rfl, rfl⟩
  · simp only
    rcases hr : W.readAll s1 body with ⟨s2, e | bytes⟩
    · exact ⟨rfl, rfl, rfl, rfl, rfl⟩
    · simp only
      rcases hd : W.imageDecode bytes with e | img
      · exact ⟨rfl, rfl, rfl, rfl, rfl⟩
      · obtain ⟨c1, c2, c3, c4⟩ := convertAll_view L ovf img resolutions
        simp only
        refine ⟨trivial, ?_, ?_, ?_, ?_⟩
        · rw [List.filterMap_append, c1]; rfl
        · rw [List.filterMap_append, c2]; rfl
        · rw [List.filter_append, c3]; rfl
        · rw [List.filter_append, List.length_append, c4]
          simp [Event.isConversionErrorLog, expectedCalls]


theorem attempts_append {σ Err Body : Type} (W : World σ Err Body) (l1 l2 : List String) :
    ∀ s : σ, attempts W s (l1 ++ l2) =
      ((attempts W (attempts W s l1).1 l2).1,
        (attempts W s l1).2 ++ (attempts W (attempts W s l1).1 l2).2) := by
  induction l1 with
  | nil => intro s; rfl
  | cons u rest ih =>
    intro s
    show attempts W s (u :: (rest ++ l2)) = _
    have hc : ∀ l, attempts W s (u :: l) =
        ((attempts W (fetchDecode W s u).1 l).1,
          (fetchDecode W s u).2 :: (attempts W (fetchDecode W s u).1 l).2) := fun _ => rfl
    rw [hc, hc, ih]
    rfl

theorem processImages_view {σ Err Body : Type} (W : World σ Err Body) (L : Libs Err)
    (ovf : GoFloat → Int) (urls : List String) : ∀ (s : σ) (i : Nat),
    (processImages W L ovf s i urls).1 = (attempts W s urls).1 ∧
      (processImages W L ovf s i urls).2.filterMap Event.getURL = urls ∧
      (processImages W L ovf s i urls).2.filterMap Event.resizeArgs =
        (attempts W s urls).2.flatMap expectedCalls ∧
      ((processImages W L ovf s i urls).2.filter Event.isSkipLog).length =
        ((attempts W s urls).2.filter Option.isNone).length ∧
      ((processImages W L ovf s i urls).2.filter Event.isConversionErrorLog).length =
        failing L ovf ((attempts W s urls).2.flatMap expectedCalls) := by
  induction urls with
  | nil => intro s i; exact ⟨rfl, rfl, rfl, rfl, rfl⟩
  | cons u rest ih =>
    intro s i
    obtain ⟨a1, a2, a3, a4, a5⟩ := processImage_view W L ovf s i u
    obtain ⟨b1, b2, b3, b4, b5⟩ := ih (processImage W L ovf s i u).1 (i + 1)
    rw [a1] at b1 b2 b3 b4 b5
    simp only [processImages, attempts]
    refine ⟨?_, ?_, ?_, ?_, ?_⟩
    · rw [a1]; exact b1
    · rw [a1, List.filterMap_append, a2, b2]; rfl
    · rw [a1, List.filterMap_append, a3, b3, List.flatMap_cons]
    · rw [a1, List.filter_append, List.length_append, a4, b4]
      cases (fetchDecode W s u).2 <;> simp [Nat.add_comm]
    · rw [a1, List.filter_append, List.length_append, a5, b5, List.flatMap_cons,
        failing_append]

theorem processProducts_view {σ Err Body : Type} (W : World σ Err Body) (L : Libs Err)
    (ovf : GoFloat → Int) (products : List Product) : ∀ (s : σ) (pIndex : Nat),
    (processProducts W L ovf s pIndex products).1 = (attempts W s (allURLs products)).1 ∧
      (processProducts W L ovf s pIndex products).2.filterMap Event.getURL =
        allURLs products ∧
      (processProducts W L ovf s pIndex products).2.filterMap Event.resizeArgs =
        (attempts W s (allURLs products)).2.flatMap expectedCalls ∧
      ((processProducts W L ovf s pIndex products).2.filter Event.isSkipLog).length =
        ((attempts W s (allURLs products)).2.filter Option.isNone).length ∧
      ((processProducts W L ovf s pIndex products).2.filter
          Event.isConversionErrorLog).length =
        failing L ovf ((attempts W s (allURLs products)).2.flatMap expectedCalls) := by
  induction products with
  | nil => intro s pIndex; exact ⟨rfl, rfl, rfl, rfl, rfl⟩
  | cons p rest ih =>
    intro s pIndex
    have hurls : allURLs (p :: rest) = p.Originals ++ allURLs rest := by
      simp [allURLs]
    rw [hurls, attempts_append]
    unfold processProducts
    split_ifs with h0
    · have hnil : p.Originals = [] := List.length_eq_zero.mp h0
      obtain ⟨b1, b2, b3, b4, b5⟩ := ih s (pIndex + 1)
      rw [hnil]
      simp only [attempts, List.nil_append]
      refine ⟨b1, ?_, ?_, ?_, ?_⟩
      · rw [List.filterMap_cons_none rfl, List.filterMap_cons_none rfl]; exact b2
      · rw [List.filterMap_cons_none rfl, List.filterMap_cons_none rfl]; exact b3
      · rw [List.filter_cons_of_neg (by simp [Event.isSkipLog]),
          List.filter_cons_of_neg (by simp [Event.isSkipLog])]
        exact b4
      · rw [List.filter_cons_of_neg (by simp [Event.isConversionErrorLog]),
          List.filter_cons_of_neg (by simp [Event.isConversionErrorLog])]
        exact b5
    · obtain ⟨a1, a2, a3, a4, a5⟩ := processImages_view W L ovf p.Originals s 0
      obtain ⟨b1, b2, b3, b4, b5⟩ :=
        ih (processImages W L ovf s 0 p.Originals).1 (pIndex + 1)
      rw [a1] at b1 b2 b3 b4 b5
      simp only
      refine ⟨?_, ?_, ?_, ?_, ?_⟩
      · rw [a1]; exact b1
      · rw [List.filterMap_cons_none rfl, a1, List.filterMap_append, a2, b2]
      · rw [List.filterMap_cons_none rfl, a1, List.filterMap_append, a3, b3,
          List.flatMap_append]
      · rw [List.filter_cons_of_neg (by simp [Event.isSkipLog]), a1, List.filter_append,
          List.length_append, a4, b4, List.filter_append, List.length_append]
      · rw [List.filter_cons_of_neg (by simp [Event.isConversionErrorLog]), a1,
          List.filter_append, List.length_append, a5, b5, List.flatMap_append,
          failing_append]

theorem imagingResizeDims_height (ovf : GoFloat → Int) (srcW srcH width height : Int)
    (hW : 1 ≤ srcW) (hH : 1 ≤ srcH) (hw : 0 ≤ width) (hh : 1 ≤ height) :
    (imagingResizeDims ovf srcW srcH width height).2 = height := by
  unfold imagingResizeDims
  rw [if_neg (by omega), if_neg (by omega), if_neg (by omega)]
  simp only
  rw [if_neg (by omega)]

/-! ## The claims -/

/-- Claim C1, counterexample: for a 134217730 x 1 image and target height
134217729 the computed width is 18014398912135168, two pixels below the exact
quotient 18014398912135170. -/
theorem C1_counterexample :
    newWidth ovfAmd64 134217730 1 134217729 = 18014398912135168 ∧
      (134217730 * 134217729 / 1 : Int) = 18014398912135170 ∧
      ¬ (134217730 * 134217729 / 1 - 1 ≤ newWidth ovfAmd64 134217730 1 134217729) := by
  decide

/-- Claim C1 (amended): for dimensions in `[1, 2 ^ 53)` whose exact scaled width
`origWidth * Height / origHeight` is at most `2 ^ 52 - 1`, the width computed by
`ResizeToWebP` differs from the floor of the exact quotient by at most one. -/
theorem C1_width_within_one_pixel (ovf : GoFloat → Int) (w H h : Int) (hw : 1 ≤ w) (hH : 1 ≤ H)
    (hh : 1 ≤ h) (bw : w < 2 ^ 53) (bH : H < 2 ^ 53) (bh : h < 2 ^ 53)
    (hx : w * h ≤ (2 ^ 52 - 1) * H) :
    w * h / H - 1 ≤ newWidth ovf w H h ∧ newWidth ovf w H h ≤ w * h / H + 1 := by
  obtain ⟨pr, hin, hlo, hhi⟩ := newWidth_err ovf w H h hw hH hh bw bH bh
  obtain ⟨f1, f2, -, -⟩ := floor_div_bounds (w * h) H (by omega)
  have hHq : (0 : ℚ) < H := by exact_mod_cast (show 0 < H by omega)
  have hxq : ((w * h : ℤ) : ℚ) / H ≤ 2 ^ 52 - 1 := by
    rw [div_le_iff₀ hHq]; exact_mod_cast hx
  have hx0 : (0 : ℚ) ≤ ((w * h : ℤ) : ℚ) / H := by
    apply div_nonneg _ hHq.le
    have : 0 ≤ w * h := by positivity
    exact_mod_cast this
  set x := ((w * h : ℤ) : ℚ) / H
  have hup : pr < x + 1 := by
    have : x * (1 + 1 / 2 ^ 53) * (1 + 1 / 2 ^ 53) = x + x * (2 / 2 ^ 53 + 1 / 2 ^ 106) := by
      ring
    have : x * (2 / 2 ^ 53 + 1 / 2 ^ 106) ≤ (2 ^ 52 - 1) * (2 / 2 ^ 53 + 1 / 2 ^ 106) :=
      mul_le_mul_of_nonneg_right hxq (by norm_num)
    have : ((2 : ℚ) ^ 52 - 1) * (2 / 2 ^ 53 + 1 / 2 ^ 106) < 1 := by norm_num
    linarith
  have hdn : x - 1 < pr := by
    have : x * (1 - 1 / 2 ^ 53) * (1 - 1 / 2 ^ 53) = x - x * (2 / 2 ^ 53 - 1 / 2 ^ 106) := by
      ring
    have : x * (2 / 2 ^ 53 - 1 / 2 ^ 106) ≤ (2 ^ 52 - 1) * (2 / 2 ^ 53 - 1 / 2 ^ 106) :=
      mul_le_mul_of_nonneg_right hxq (by norm_num)
    have : ((2 : ℚ) ^ 52 - 1) * (2 / 2 ^ 53 - 1 / 2 ^ 106) < 1 := by norm_num
    linarith
  have hlt : pr < 2 ^ 63 := by
    have : (2 : ℚ) ^ 52 - 1 + 1 < 2 ^ 63 := by norm_num
    linarith
  rw [hin hlt]
  constructor
  · rw [Int.le_floor]; push_cast; linarith
  · have : ⌊pr⌋ < w * h / H + 1 + 1 := by
      rw [Int.floor_lt]; push_cast; linarith
    omega

/-- Claim C1, instance: a 360 x 480 image scaled to height 292. -/
theorem C1_witness :
    ((1 : Int) ≤ 360 ∧ (1 : Int) ≤ 480 ∧ (1 : Int) ≤ 292 ∧ (360 : Int) < 2 ^ 53 ∧
      (480 : Int) < 2 ^ 53 ∧ (292 : Int) < 2 ^ 53 ∧ (360 * 292 : Int) ≤ (2 ^ 52 - 1) * 480) ∧
      ((360 * 292 / 480 : Int) - 1 ≤ newWidth ovfAmd64 360 480 292 ∧
        newWidth ovfAmd64 360 480 292 ≤ 360 * 292 / 480 + 1) :=
  ⟨by decide, C1_width_within_one_pixel ovfAmd64 360 480 292 (by decide) (by decide)
    (by decide) (by decide) (by decide) (by decide) (by decide)⟩

/-- Claim C2, counterexample: for a 360 x 480 image and target height 292 (the
first configured resolution) the computed width is 218, while
`floor(360 * 292 / 480) = 219`. -/
theorem C2_counterexample :
    newWidth ovfAmd64 360 480 292 = 218 ∧ (360 * 292 / 480 : Int) = 219 := by
  decide

/-- Claim C2 (amended): for `origHeight < 2 ^ 53` and `origWidth * Height < 2 ^ 52`
the computed width is the floor of the exact quotient or one less, and it is
exactly the floor whenever `origHeight` does not divide `origWidth * Height`. -/
theorem C2_width_exact_or_one_less (ovf : GoFloat → Int) (w H h : Int) (hw : 1 ≤ w) (hH : 1 ≤ H)
    (hh : 1 ≤ h) (bH : H < 2 ^ 53) (hK : w * h < 2 ^ 52) :
    w * h / H - 1 ≤ newWidth ovf w H h ∧ newWidth ovf w H h ≤ w * h / H ∧
      (w * h % H ≠ 0 → newWidth ovf w H h = w * h / H) := by
  have bw : w < 2 ^ 53 := by nlinarith
  have bh : h < 2 ^ 53 := by nlinarith
  obtain ⟨pr, hin, hlo, hhi⟩ := newWidth_err ovf w H h hw hH hh bw bH bh
  obtain ⟨f1, f2, f3, f4⟩ := floor_div_bounds (w * h) H (by omega)
  have hHq : (0 : ℚ) < H := by exact_mod_cast (show 0 < H by omega)
  have hH1 : (1 : ℚ) ≤ H := by exact_mod_cast hH
  have hKq : ((w * h : ℤ) : ℚ) ≤ 2 ^ 52 - 1 := by
    have : w * h ≤ 2 ^ 52 - 1 := by omega
    exact_mod_cast this
  have hK0 : (0 : ℚ) ≤ ((w * h : ℤ) : ℚ) := by
    have : 0 ≤ w * h := by positivity
    exact_mod_cast this
  have hinv : (0 : ℚ) < 1 / H := by positivity
  have hinv1 : (1 : ℚ) / H ≤ 1 := by rw [div_le_one hHq]; exact hH1
  set K := ((w * h : ℤ) : ℚ)
  have hup : pr < K / H + 1 / H := by
    have e : K / H * (1 + 1 / 2 ^ 53) * (1 + 1 / 2 ^ 53) =
        K / H + K * (2 / 2 ^ 53 + 1 / 2 ^ 106) * (1 / H) := by ring
    have h1 : K * (2 / 2 ^ 53 + 1 / 2 ^ 106) ≤ (2 ^ 52 - 1) * (2 / 2 ^ 53 + 1 / 2 ^ 106) :=
      mul_le_mul_of_nonneg_right hKq (by norm_num)
    have h2 : ((2 : ℚ) ^ 52 - 1) * (2 / 2 ^ 53 + 1 / 2 ^ 106) < 1 := by norm_num
    have h3 : K * (2 / 2 ^ 53 + 1 / 2 ^ 106) * (1 / H) < 1 * (1 / H) :=
      mul_lt_mul_of_pos_right (by linarith) hinv
    linarith
  have hdn : K / H - 1 / H < pr := by
    have e : K / H * (1 - 1 / 2 ^ 53) * (1 - 1 / 2 ^ 53) =
        K / H - K * (2 / 2 ^ 53 - 1 / 2 ^ 106) * (1 / H) := by ring
    have h1 : K * (2 / 2 ^ 53 - 1 / 2 ^ 106) ≤ (2 ^ 52 - 1) * (2 / 2 ^ 53 - 1 / 2 ^ 106) :=
      mul_le_mul_of_nonneg_right hKq (by norm_num)
    have h2 : ((2 : ℚ) ^ 52 - 1) * (2 / 2 ^ 53 - 1 / 2 ^ 106) < 1 := by norm_num
    have h3 : K * (2 / 2 ^ 53 - 1 / 2 ^ 106) * (1 / H) < 1 * (1 / H) :=
      mul_lt_mul_of_pos_right (by linarith) hinv
    linarith
  have hKH : K / H ≤ 2 ^ 52 := by
    rw [div_le_iff₀ hHq]; nlinarith
  have hlt : pr < 2 ^ 63 := by
    have : (2 : ℚ) ^ 52 + 1 < 2 ^ 63 := by norm_num
    linarith
  rw [hin hlt]
  have hle : ⌊pr⌋ ≤ w * h / H := by
    have : ⌊pr⌋ < w * h / H + 1 := by
      rw [Int.floor_lt]; push_cast; linarith
    omega
  refine ⟨?_, hle, ?_⟩
  · rw [Int.le_floor]; push_cast; linarith
  · intro hne
    have := f3 hne
    have : w * h / H ≤ ⌊pr⌋ := by
      rw [Int.le_floor]; linarith
    omega

/-- Claim C2, instance: a 1000 x 750 image scaled to height 292 gets exactly
`floor(1000 * 292 / 750)`. -/
theorem C2_witness :
    ((1 : Int) ≤ 1000 ∧ (1 : Int) ≤ 750 ∧ (1 : Int) ≤ 292 ∧ (750 : Int) < 2 ^ 53 ∧
      (1000 * 292 : Int) < 2 ^ 52) ∧
      ((1000 * 292 / 750 : Int) - 1 ≤ newWidth ovfAmd64 1000 750 292 ∧
        newWidth ovfAmd64 1000 750 292 ≤ 1000 * 292 / 750 ∧
        ((1000 * 292 % 750 : Int) ≠ 0 → newWidth ovfAmd64 1000 750 292 = 1000 * 292 / 750)) :=
  ⟨by decide, C2_width_exact_or_one_less ovfAmd64 1000 750 292 (by decide) (by decide)
    (by decide) (by decide) (by decide)⟩

/-- Claim C3, counterexample: on amd64, for a 4294967296 x 1 image and target
height 2147483648 the computed width is `-2 ^ 63`; the height requested from the
resampler is 2147483648, but a resampler with the dimension rule of
`imaging.Resize` answers a negative width with an empty raster, so the raster
handed to the encoder has height 0. -/
theorem C3_counterexample :
    ((1 : Int) ≤ wideImage.Dx ∧ (1 : Int) ≤ wideImage.Dy ∧
      (1 : Int) ≤ (Resolution.mk 390 2147483648).Height ∧
      FollowsImagingDims demoLibs ovfAmd64) ∧
      newWidth ovfAmd64 wideImage.Dx wideImage.Dy (Resolution.mk 390 2147483648).Height =
        -9223372036854775808 ∧
      (ResizeToWebP demoLibs ovfAmd64 wideImage (Resolution.mk 390 2147483648) 80).calls.filterMap
          Call.requestedHeight = [2147483648] ∧
      ((ResizeToWebP demoLibs ovfAmd64 wideImage (Resolution.mk 390 2147483648)
          80).calls.filterMap Call.encodedRaster).map Image.Dy = [0] ∧
      (resized demoLibs ovfAmd64 wideImage (Resolution.mk 390 2147483648)).Dy ≠
        (Resolution.mk 390 2147483648).Height :=
  ⟨⟨by decide, by decide, by decide, fun _ _ _ _ => rfl⟩, by decide, by decide, by decide,
    by decide⟩

/-- Claim C3 (amended): for every image with `origWidth, origHeight ≥ 1` and every
resolution with `Height ≥ 1`, `ResizeToWebP` makes one resample call, the height it
requests is `res.Height`, and the raster handed to the encoder is the resampler's
result for that request; with the dimension rule of `imaging.Resize`, that raster
has height `res.Height` whenever the computed `newWidth` is not negative. -/
theorem C3_requested_height {Err : Type} (L : Libs Err) (ovf : GoFloat → Int)
    (img : Image) (res : Resolution) (q : Int) (hW : 1 ≤ img.Dx) (hH : 1 ≤ img.Dy)
    (hh : 1 ≤ res.Height) :
    (ResizeToWebP L ovf img res q).calls.filterMap Call.requestedHeight = [res.Height] ∧
      (ResizeToWebP L ovf img res q).calls.filterMap Call.encodedRaster =
        [resized L ovf img res] ∧
      (FollowsImagingDims L ovf → 0 ≤ newWidth ovf img.Dx img.Dy res.Height →
        (resized L ovf img res).Dy = res.Height) := by
  rw [ResizeToWebP_calls]
  refine ⟨rfl, rfl, ?_⟩
  intro hres hnw
  have hd := hres img (newWidth ovf img.Dx img.Dy res.Height) res.Height
    ResampleFilter.Lanczos
  have h2 := congrArg Prod.snd hd
  simp only at h2
  rw [imagingResizeDims_height ovf img.Dx img.Dy _ res.Height hW hH hnw hh] at h2
  exact h2

/-- Claim C3, instance: the 360 x 480 image at height 292, where the computed
width is 218 and the raster handed to the encoder has height 292. -/
theorem C3_witness :
    ((1 : Int) ≤ portraitImage.Dx ∧ (1 : Int) ≤ portraitImage.Dy ∧
      (1 : Int) ≤ (Resolution.mk 390 292).Height) ∧
      ((ResizeToWebP demoLibs ovfAmd64 portraitImage (Resolution.mk 390 292) 80).calls.filterMap
          Call.requestedHeight = [(Resolution.mk 390 292).Height] ∧
        (ResizeToWebP demoLibs ovfAmd64 portraitImage (Resolution.mk 390 292)
            80).calls.filterMap Call.encodedRaster =
          [resized demoLibs ovfAmd64 portraitImage (Resolution.mk 390 292)] ∧
        (FollowsImagingDims demoLibs ovfAmd64 →
          0 ≤ newWidth ovfAmd64 portraitImage.Dx portraitImage.Dy
            (Resolution.mk 390 292).Height →
          (resized demoLibs ovfAmd64 portraitImage (Resolution.mk 390 292)).Dy =
            (Resolution.mk 390 292).Height)) ∧
      (resized demoLibs ovfAmd64 portraitImage (Resolution.mk 390 292)).Dy = 292 :=
  ⟨⟨by decide, by decide, by decide⟩,
    C3_requested_height demoLibs ovfAmd64 portraitImage (Resolution.mk 390 292) 80
      (by decide) (by decide) (by decide),
    (C3_requested_height demoLibs ovfAmd64 portraitImage (Resolution.mk 390 292) 80
      (by decide) (by decide) (by decide)).2.2 (fun _ _ _ _ => rfl) (by decide)⟩

/-- Claim C4: for a 1200 x 900 image and a resolution of height 300 the computed
width is 400 and the resampler is asked for 400 x 300. -/
theorem C4_1200x900_to_400x300 {Err : Type} (L : Libs Err) (ovf : GoFloat → Int)
    (pix : List Nat) (width q : Int) :
    newWidth ovf 1200 900 300 = 400 ∧
      (ResizeToWebP L ovf { Dx := 1200, Dy := 900, pix := pix }
          { Width := width, Height := 300 } q).calls.head? =
        some (Call.resize { Dx := 1200, Dy := 900, pix := pix } 400 300
          ResampleFilter.Lanczos) := by
  have h : newWidth ovf 1200 900 300 = 400 := by
    rw [newWidth_of_fits ovf ovfAmd64 1200 900 300 (by decide)]
    decide
  refine ⟨h, ?_⟩
  rw [ResizeToWebP_calls]
  show some (Call.resize _ (newWidth ovf 1200 900 300) 300 _) = _
  rw [h]

/-- Claim C5: for a 10 x 1000 image and target height 50 the computed width is 0;
the resampler is asked for 0 x 50 and, with the dimension rule of
`imaging.Resize`, returns a raster of width 1 and height 50; `ResizeToWebP` then
either returns the encoder's error with no bytes or the bytes encoded from that
raster. -/
theorem C5_degenerate_width {Err : Type} (L : Libs Err) (ovf : GoFloat → Int)
    (img : Image) (res : Resolution) (q : Int) (hW : img.Dx = 10) (hH : img.Dy = 1000)
    (hh : res.Height = 50) (hres : FollowsImagingDims L ovf) :
    newWidth ovf img.Dx img.Dy res.Height = 0 ∧
      (ResizeToWebP L ovf img res q).calls =
        [Call.resize img 0 50 ResampleFilter.Lanczos,
          Call.encode (L.imagingResize img 0 50 ResampleFilter.Lanczos) (float32 q)] ∧
      (L.imagingResize img 0 50 ResampleFilter.Lanczos).Dx = 1 ∧
      (L.imagingResize img 0 50 ResampleFilter.Lanczos).Dy = 50 ∧
      ((∃ e, (L.webpEncode (L.imagingResize img 0 50 ResampleFilter.Lanczos)
              (float32 q)).2 = some e ∧
            (ResizeToWebP L ovf img res q).err = some e ∧
            (ResizeToWebP L ovf img res q).bytes = []) ∨
        ((ResizeToWebP L ovf img res q).err = none ∧
          (ResizeToWebP L ovf img res q).bytes =
            (L.webpEncode (L.imagingResize img 0 50 ResampleFilter.Lanczos)
              (float32 q)).1)) := by
  have h0 : newWidth ovf img.Dx img.Dy res.Height = 0 := by
    rw [hW, hH, hh, newWidth_of_fits ovf ovfAmd64 10 1000 50 (by decide)]
    decide
  have hauto : intOfFloat ovf (imagingAuto 50 10 1000) = 1 := by
    rw [intOfFloat_of_fits ovf ovfAmd64 _ (by decide)]
    decide
  have hdims : imagingResizeDims ovf 10 1000 0 50 = (1, 50) := by
    simp [imagingResizeDims, hauto]
  have hd := hres img 0 50 ResampleFilter.Lanczos
  rw [hW, hH, hdims] at hd
  have hcalls := ResizeToWebP_calls L ovf img res q
  rw [h0, hh] at hcalls
  refine ⟨h0, hcalls, (Prod.mk.inj hd).1, (Prod.mk.inj hd).2, ?_⟩
  rcases henc : L.webpEncode (L.imagingResize img 0 50 ResampleFilter.Lanczos) (float32 q)
    with ⟨buf, oe⟩
  have henc2 : L.webpEncode (L.imagingResize img (newWidth ovf img.Dx img.Dy res.Height)
      res.Height ResampleFilter.Lanczos) (float32 q) = (buf, oe) := by
    rw [h0, hh]; exact henc
  obtain ⟨r1, r2⟩ := ResizeToWebP_result L ovf img res q buf oe henc2
  cases oe with
  | none => right; exact ⟨r1, by simpa using r2⟩
  | some e => left; exact ⟨e, rfl, r1, by simpa using r2⟩

/-- Claim C5, instance: the 10 x 1000 image with a resampler that follows the
dimension rule of `imaging.Resize`. -/
theorem C5_witness :
    (narrowImage.Dx = 10 ∧ narrowImage.Dy = 1000 ∧
      (Resolution.mk 390 50).Height = 50 ∧ FollowsImagingDims demoLibs ovfAmd64) ∧
      (newWidth ovfAmd64 narrowImage.Dx narrowImage.Dy (Resolution.mk 390 50).Height = 0 ∧
        (ResizeToWebP demoLibs ovfAmd64 narrowImage (Resolution.mk 390 50) 80).calls =
          [Call.resize narrowImage 0 50 ResampleFilter.Lanczos,
            Call.encode (demoLibs.imagingResize narrowImage 0 50 ResampleFilter.Lanczos)
              (float32 80)] ∧
        (demoLibs.imagingResize narrowImage 0 50 ResampleFilter.Lanczos).Dx = 1 ∧
        (demoLibs.imagingResize narrowImage 0 50 ResampleFilter.Lanczos).Dy = 50 ∧
        ((∃ e, (demoLibs.webpEncode
                (demoLibs.imagingResize narrowImage 0 50 ResampleFilter.Lanczos)
                (float32 80)).2 = some e ∧
              (ResizeToWebP demoLibs ovfAmd64 narrowImage (Resolution.mk 390 50) 80).err =
                some e ∧
              (ResizeToWebP demoLibs ovfAmd64 narrowImage (Resolution.mk 390 50) 80).bytes =
                []) ∨
          ((ResizeToWebP demoLibs ovfAmd64 narrowImage (Resolution.mk 390 50) 80).err = none ∧
            (ResizeToWebP demoLibs ovfAmd64 narrowImage (Resolution.mk 390 50) 80).bytes =
              (demoLibs.webpEncode
                (demoLibs.imagingResize narrowImage 0 50 ResampleFilter.Lanczos)
                (float32 80)).1))) :=
  ⟨⟨rfl, rfl, rfl, fun _ _ _ _ => rfl⟩,
    C5_degenerate_width demoLibs ovfAmd64 narrowImage (Resolution.mk 390 50) 80 rfl rfl rfl
      (fun _ _ _ _ => rfl)⟩

/-- Claim C6, counterexample: for an image 9007199254740993 pixels wide and a
target height equal to the image height the computed width is 9007199254740992,
not the original width. -/
theorem C6_counterexample :
    newWidth ovfAmd64 9007199254740993 1 1 = 9007199254740992 ∧
      newWidth ovfAmd64 9007199254740993 1 1 ≠ 9007199254740993 := by
  decide

/-- Claim C6 (amended): for an image with `1 ≤ origWidth < 2 ^ 53` and
`1 ≤ origHeight`, a target height equal to `origHeight` gives a computed width
equal to `origWidth`, and the resampler is asked for the input dimensions. -/
theorem C6_same_height_keeps_dimensions {Err : Type} (L : Libs Err) (ovf : GoFloat → Int)
    (img : Image) (res : Resolution) (q : Int) (hw : 1 ≤ img.Dx) (hw2 : img.Dx < 2 ^ 53)
    (hH : 1 ≤ img.Dy) (hres : res.Height = img.Dy) :
    newWidth ovf img.Dx img.Dy res.Height = img.Dx ∧
      (ResizeToWebP L ovf img res q).calls.head? =
        some (Call.resize img img.Dx img.Dy ResampleFilter.Lanczos) := by
  have h : newWidth ovf img.Dx img.Dy res.Height = img.Dx := by
    rw [hres]
    exact newWidth_same_height ovf img.Dx img.Dy (by omega) hw2 (by omega)
  refine ⟨h, ?_⟩
  rw [ResizeToWebP_calls, h, hres]
  rfl

/-- Claim C6, instance: the 360 x 480 image with target height 480. -/
theorem C6_witness :
    ((1 : Int) ≤ portraitImage.Dx ∧ portraitImage.Dx < 2 ^ 53 ∧ (1 : Int) ≤ portraitImage.Dy ∧
      (Resolution.mk 390 480).Height = portraitImage.Dy) ∧
      (newWidth ovfAmd64 portraitImage.Dx portraitImage.Dy (Resolution.mk 390 480).Height =
          portraitImage.Dx ∧
        (ResizeToWebP demoLibs ovfAmd64 portraitImage (Resolution.mk 390 480) 80).calls.head? =
          some (Call.resize portraitImage portraitImage.Dx portraitImage.Dy
            ResampleFilter.Lanczos)) :=
  ⟨by decide, C6_same_height_keeps_dimensions demoLibs ovfAmd64 portraitImage
    (Resolution.mk 390 480) 80 (by decide) (by decide) (by decide) rfl⟩

/-- Claim C7: the error `ResizeToWebP` returns is the encoder's error (so it is
non-nil exactly when the encoder fails); on failure the returned bytes are nil,
on success they are the bytes the encoder wrote; the encoder is called once. -/
theorem C7_encoder_error_propagates {Err : Type} (L : Libs Err) (ovf : GoFloat → Int)
    (img : Image) (res : Resolution) (q : Int) :
    (ResizeToWebP L ovf img res q).err = (encoded L ovf img res q).2 ∧
      ((ResizeToWebP L ovf img res q).err ≠ none ↔ (encoded L ovf img res q).2 ≠ none) ∧
      ((encoded L ovf img res q).2 ≠ none → (ResizeToWebP L ovf img res q).bytes = []) ∧
      ((encoded L ovf img res q).2 = none →
        (ResizeToWebP L ovf img res q).bytes = (encoded L ovf img res q).1) ∧
      ((ResizeToWebP L ovf img res q).calls.filter Call.isEncode).length = 1 := by
  rcases henc : encoded L ovf img res q with ⟨buf, oe⟩
  obtain ⟨r1, r2⟩ := ResizeToWebP_result L ovf img res q buf oe henc
  rw [ResizeToWebP_calls]
  refine ⟨r1, by rw [r1], ?_, ?_, rfl⟩
  · intro hne
    cases oe with
    | none => exact absurd rfl hne
    | some e => simpa using r2
  · intro he
    simp only at he
    subst he
    simpa using r2

/-- Claim C8: two resolutions with the same `Height` give the same computed width
and the same result of `ResizeToWebP` (bytes, error and library calls), whatever
their `Width`. -/
theorem C8_width_unused {Err : Type} (L : Libs Err) (ovf : GoFloat → Int)
    (img : Image) (res res' : Resolution) (q : Int) (h : res.Height = res'.Height) :
    newWidth ovf img.Dx img.Dy res.Height = newWidth ovf img.Dx img.Dy res'.Height ∧
      (ResizeToWebP L ovf img res q).bytes = (ResizeToWebP L ovf img res' q).bytes ∧
      (ResizeToWebP L ovf img res q).err = (ResizeToWebP L ovf img res' q).err ∧
      (ResizeToWebP L ovf img res q).calls = (ResizeToWebP L ovf img res' q).calls := by
  have e : ResizeToWebP L ovf img res q = ResizeToWebP L ovf img res' q := by
    unfold ResizeToWebP
    rw [h]
  rw [e, h]
  exact ⟨rfl, rfl, rfl, rfl⟩

/-- Claim C8, instance: widths 390 and 1428 at height 292 on the 360 x 480 image. -/
theorem C8_witness :
    (Resolution.mk 390 292).Height = (Resolution.mk 1428 292).Height ∧
      (newWidth ovfAmd64 portraitImage.Dx portraitImage.Dy (Resolution.mk 390 292).Height =
          newWidth ovfAmd64 portraitImage.Dx portraitImage.Dy
            (Resolution.mk 1428 292).Height ∧
        (ResizeToWebP demoLibs ovfAmd64 portraitImage (Resolution.mk 390 292) 80).bytes =
          (ResizeToWebP demoLibs ovfAmd64 portraitImage (Resolution.mk 1428 292) 80).bytes ∧
        (ResizeToWebP demoLibs ovfAmd64 portraitImage (Resolution.mk 390 292) 80).err =
          (ResizeToWebP demoLibs ovfAmd64 portraitImage (Resolution.mk 1428 292) 80).err ∧
        (ResizeToWebP demoLibs ovfAmd64 portraitImage (Resolution.mk 390 292) 80).calls =
          (ResizeToWebP demoLibs ovfAmd64 portraitImage (Resolution.mk 1428 292) 80).calls) :=
  ⟨rfl, C8_width_unused demoLibs ovfAmd64 portraitImage (Resolution.mk 390 292)
    (Resolution.mk 1428 292) 80 rfl⟩

/-- Claim C9: when the catalog is fetched and decoded with at least one product,
`main` returns normally; its `http.Get` calls after the catalog request are the
image URLs of all products in array order; its `ResizeToWebP` calls are, for each
URL in that order, one call per configured resolution (three) when the image was
fetched, read and decoded, and none otherwise; every skipped image and every
failed conversion is logged once. -/
theorem C9_batch_continues {σ Err Body : Type} (W : World σ Err Body) (L : Libs Err)
    (ovf : GoFloat → Int) (s s1 s2 : σ) (body : Body) (products : List Product)
    (hget : W.httpGet s catalogURL = (s1, Except.ok body))
    (hjson : W.jsonDecode s1 body = (s2, Except.ok products))
    (hne : products ≠ []) :
    (main W L ovf s).2.2 = Exit.returned ∧
      (main W L ovf s).2.1.filterMap Event.getURL = catalogURL :: allURLs products ∧
      (main W L ovf s).2.1.filterMap Event.resizeArgs =
        (attempts W s2 (allURLs products)).2.flatMap expectedCalls ∧
      resolutions.length = 3 ∧
      ((main W L ovf s).2.1.filter Event.isSkipLog).length =
        ((attempts W s2 (allURLs products)).2.filter Option.isNone).length ∧
      ((main W L ovf s).2.1.filter Event.isConversionErrorLog).length =
        failing L ovf ((main W L ovf s).2.1.filterMap Event.resizeArgs) := by
  obtain ⟨-, b2, b3, b4, b5⟩ := processProducts_view W L ovf products s2 0
  have hlen : ¬ products.length = 0 := fun h => hne (List.length_eq_zero.mp h)
  have hmain : main W L ovf s =
      ((processProducts W L ovf s2 0 products).1,
        Event.get catalogURL :: (processProducts W L ovf s2 0 products).2,
        Exit.returned) := by
    unfold main
    simp only [hget, hjson, if_neg hlen]
  rw [hmain]
  refine ⟨rfl, ?_, ?_, rfl, ?_, ?_⟩
  · have e : ∀ tl : List (Event Err),
        List.filterMap Event.getURL (Event.get catalogURL :: tl) =
          catalogURL :: List.filterMap Event.getURL tl := fun _ => rfl
    show List.filterMap Event.getURL (_ :: _) = _
    rw [e, b2]
  · show List.filterMap Event.resizeArgs (_ :: _) = _
    rw [List.filterMap_cons_none rfl, b3]
  · show (List.filter Event.isSkipLog (_ :: _)).length = _
    rw [List.filter_cons_of_neg (by simp [Event.isSkipLog]), b4]
  · show (List.filter Event.isConversionErrorLog (_ :: _)).length =
      failing L ovf (List.filterMap Event.resizeArgs (_ :: _))
    rw [List.filter_cons_of_neg (by simp [Event.isConversionErrorLog]),
      List.filterMap_cons_none rfl, b5, b3]

/-- Claim C9, instance: a catalog of two products; the first image converts, the
second cannot be fetched, the second product has no images. -/
theorem C9_witness :
    (demoWorld.httpGet 0 catalogURL = (1, Except.ok "catalog") ∧
      demoWorld.jsonDecode 1 "catalog" = (1, Except.ok demoProducts) ∧
      demoProducts ≠ []) ∧
      ((main demoWorld demoLibs ovfAmd64 0).2.2 = Exit.returned ∧
        (main demoWorld demoLibs ovfAmd64 0).2.1.filterMap Event.getURL =
          catalogURL :: allURLs demoProducts ∧
        (main demoWorld demoLibs ovfAmd64 0).2.1.filterMap Event.resizeArgs =
          (attempts demoWorld 1 (allURLs demoProducts)).2.flatMap expectedCalls ∧
        resolutions.length = 3 ∧
        ((main demoWorld demoLibs ovfAmd64 0).2.1.filter Event.isSkipLog).length =
          ((attempts demoWorld 1 (allURLs demoProducts)).2.filter Option.isNone).length ∧
        ((main demoWorld demoLibs ovfAmd64 0).2.1.filter Event.isConversionErrorLog).length =
          failing demoLibs ovfAmd64
            ((main demoWorld demoLibs ovfAmd64 0).2.1.filterMap Event.resizeArgs)) :=
  ⟨⟨rfl, rfl, by decide⟩,
    C9_batch_continues demoWorld demoLibs ovfAmd64 0 1 1 "catalog" demoProducts rfl rfl
      (by decide)⟩

/-- Claim C10, counterexample: on amd64, a 4503599627370496 x 1 image scaled to
height 4503599627370496 (all below `2 ^ 53`) gets the width `-2 ^ 63`, which is
negative and below the original width although the image is scaled up. -/
theorem C10_counterexample :
    newWidth ovfAmd64 4503599627370496 1 4503599627370496 = -9223372036854775808 ∧
      ¬ (0 ≤ newWidth ovfAmd64 4503599627370496 1 4503599627370496) ∧
      ¬ (4503599627370496 ≤ newWidth ovfAmd64 4503599627370496 1 4503599627370496) := by
  decide

/-- Claim C10 (amended): for dimensions in `[1, 2 ^ 53)`, downscaling
(`Height ≤ origHeight`) gives `0 ≤ newWidth ≤ origWidth`, and upscaling
(`Height ≥ origHeight`) gives `newWidth ≥ origWidth` provided the exact scaled
width `origWidth * Height / origHeight` is at most `2 ^ 62`. -/
theorem C10_scaling_direction (ovf : GoFloat → Int) (w H h : Int) (hw : 1 ≤ w) (hH : 1 ≤ H)
    (hh : 1 ≤ h) (bw : w < 2 ^ 53) (bH : H < 2 ^ 53) (bh : h < 2 ^ 53) :
    (h ≤ H → 0 ≤ newWidth ovf w H h ∧ newWidth ovf w H h ≤ w) ∧
      (H ≤ h → w * h ≤ 2 ^ 62 * H → w ≤ newWidth ovf w H h) := by
  obtain ⟨qw, qH, qh, r, pr, rw_, rH, rh, rr, rp, pw, pH, ph, pr_, pp, -, hin, -⟩ :=
    newWidth_spec ovf w H h (by omega) (by omega) (by omega)
  have e1 : qw = (w : ℚ) := rw_.exact_int w (by omega) bw rfl
  have e2 : qH = (H : ℚ) := rH.exact_int H (by omega) bH rfl
  have e3 : qh = (h : ℚ) := rh.exact_int h (by omega) bh rfl
  rw [e1] at rp pw
  rw [e2, e3] at rr
  rw [e2] at pH
  rw [e3] at ph
  have hwn : ((w.toNat : ℕ) : ℚ) = (w : ℚ) := by
    rw [← Int.cast_natCast, Int.toNat_of_nonneg (by omega)]
  have hwq : (w : ℚ) < 2 ^ 53 := by exact_mod_cast bw
  constructor
  · intro hle
    have hleq : (h : ℚ) ≤ H := by exact_mod_cast hle
    have hr1 : r ≤ 1 := by
      have := rr.le_of_le 1 0 (by norm_num) (by
        rw [div_le_iff₀ pH]; simpa using hleq)
      simpa using this
    have hp1 : pr ≤ (w : ℚ) := by
      have := rp.le_of_le w.toNat 0 (by omega) (by
        rw [hwn, zpow_zero, mul_one]; nlinarith)
      simpa [hwn] using this
    have hlt : pr < 2 ^ 63 := by linarith
    rw [hin hlt]
    refine ⟨Int.floor_nonneg.mpr pp.le, ?_⟩
    have := Int.floor_mono hp1
    rwa [Int.floor_intCast] at this
  · intro hle hx
    have hleq : (H : ℚ) ≤ h := by exact_mod_cast hle
    have hxq : (w : ℚ) * h ≤ 2 ^ 62 * H := by exact_mod_cast hx
    have hr1 : 1 ≤ r := by
      have := rr.ge_of_ge 1 0 (by norm_num) (by
        rw [le_div_iff₀ pH]; simpa using hleq)
      simpa using this
    have hp1 : (w : ℚ) ≤ pr := by
      have := rp.ge_of_ge w.toNat 0 (by omega) (by
        rw [hwn, zpow_zero, mul_one]; nlinarith)
      simpa [hwn] using this
    have hru : r ≤ (h : ℚ) / H + (h : ℚ) / H / 2 ^ 53 := by
      have := (abs_le.mp rr.err).2
      linarith
    have hxa : (w : ℚ) * ((h : ℚ) / H) ≤ 2 ^ 62 := by
      rw [mul_div_assoc', div_le_iff₀ pH]; exact hxq
    have hwr : (w : ℚ) * r ≤ 2 ^ 62 + 2 ^ 62 / 2 ^ 53 := by
      have h1 : (w : ℚ) * r ≤ w * ((h : ℚ) / H + (h : ℚ) / H / 2 ^ 53) :=
        mul_le_mul_of_nonneg_left hru pw.le
      have h2 : (w : ℚ) * ((h : ℚ) / H + (h : ℚ) / H / 2 ^ 53) =
          w * ((h : ℚ) / H) + w * ((h : ℚ) / H) / 2 ^ 53 := by ring
      have h3 : (w : ℚ) * ((h : ℚ) / H) / 2 ^ 53 ≤ 2 ^ 62 / 2 ^ 53 :=
        div_le_div_of_nonneg_right hxa (by positivity)
      linarith
    have hp2 : pr ≤ ((2 ^ 53 - 1 : ℕ) : ℚ) * 2 ^ (10 : ℤ) := by
      apply rp.le_of_le (2 ^ 53 - 1) 10 (by norm_num)
      refine le_trans hwr ?_
      norm_num
    have hlt : pr < 2 ^ 63 := by
      refine lt_of_le_of_lt hp2 ?_
      norm_num
    rw [hin hlt]
    exact Int.le_floor.mpr hp1

/-- Claim C10, instance: a 360 x 480 image scaled down to height 292 and a
360 x 292 image scaled up to height 480. -/
theorem C10_witness :
    (((1 : Int) ≤ 360 ∧ (1 : Int) ≤ 480 ∧ (1 : Int) ≤ 292 ∧ (360 : Int) < 2 ^ 53 ∧
        (480 : Int) < 2 ^ 53 ∧ (292 : Int) < 2 ^ 53) ∧
      ((292 : Int) ≤ 480 → 0 ≤ newWidth ovfAmd64 360 480 292 ∧
          newWidth ovfAmd64 360 480 292 ≤ 360) ∧
        ((480 : Int) ≤ 292 → (360 * 292 : Int) ≤ 2 ^ 62 * 480 →
          360 ≤ newWidth ovfAmd64 360 480 292)) :=
  ⟨by decide, C10_scaling_direction ovfAmd64 360 480 292 (by decide) (by decide) (by decide)
    (by decide) (by decide) (by decide)⟩

end Resizer
